import Mathlib

/-!
# Verification of `LogisticRegression2` (src/NN/logistic_regression2.cpp)

Shallow embedding of the C++ class `ANN::LogisticRegression2`.

Modelling conventions
* `float` values are elements of a type parameter `F`.  Every definition asks
  only for the operations its source function uses (`+`, `*`, `/`, `exp`, `<`,
  ...), so the definitions read like the source and stay executable for any
  executable arithmetic.  Theorems about formulas are proved for every field
  `F` (exact arithmetic), theorems about analysis over `ℝ`, and theorems about
  the model file for every `F` that has a four byte object representation.
* `int` values are `Int`.  A conversion of a container size to `int` goes
  through `toInt32` (wrap-around); `int` arithmetic itself is exact.
* A vector is a `List`; reading or writing outside a vector, dereferencing an
  empty `unique_ptr` and an exception thrown by the standard library have no
  defined result here: the embedded function returns `none`.
* Text printed to `stderr` is not modelled; the lines `train` prints to
  `stdout` are returned as a log.
* Where the underflow of `float` decides a statement, the arithmetic is
  `UnderflowFloat`: exact, except that a sum stored into a `float` is 0 when it
  lies below the range of `float`.
* `train` is its parameter part `train_parameters` (lines 37 to 73) followed by
  the storing of the model.  No arithmetic is at once an ordered field and a
  four byte float, so the theorems about training, which use exact ordered
  arithmetic, are stated on `train_parameters`.
-/

namespace ANN

/-! ## Data model -/

/-- Exponential function of the arithmetic (`std::exp`). -/
class HasExp (F : Type) where
  exp : F → F

/-- The optimizer variants named by the source (`Optimization::BGD`, `SGD`, `MBGD`). -/
inductive Optimization where
  | BGD
  | SGD
  | MBGD
  deriving DecidableEq, Repr

/-- Activation selector; every value other than `Sigmoid` takes the `default:`
label of the source's `switch`. -/
inductive ActivationFunction where
  | Sigmoid
  | other (tag : Nat)
  deriving DecidableEq, Repr

/-- Loss selector; every value other than `MSE` takes the `default:` label of
the source's `switch`. -/
inductive LossFunction where
  | MSE
  | other (tag : Nat)
  deriving DecidableEq, Repr

/-- The training set handed to `init` (`Database`: `samples` and `labels`). -/
structure Database (F : Type) where
  samples : List (List F)
  labels : List F
  deriving DecidableEq, Repr

/-- The data members of `LogisticRegression2` that the source file uses. -/
structure LogisticRegression2 (F : Type) where
  data_ : Option (Database F)
  random_shuffle_ : List Int
  error_ : F
  epochs_ : Int
  alpha_ : F
  w_ : List F
  b_ : F
  m_ : Int
  feature_length_ : Int
  o_ : List F
  activation_func_ : ActivationFunction
  loss_func_ : LossFunction
  optim_ : Optimization
  batch_size_ : Int
  deriving DecidableEq, Repr

/-- Conversion of an integer value to a 32 bit two's complement `int`. -/
def toInt32 (n : Int) : Int :=
  (n + 2147483648) % 4294967296 - 2147483648

/-- The content of a vector after `resize(n)`: the first `n` old elements, then
value-initialised (`fill`) new ones. -/
def resize {α : Type} (v : List α) (n : Nat) (fill : α) : List α :=
  v.take n ++ List.replicate (n - v.length) fill

/-- Modelled from the spec: the `CHECK` macro (common.hpp is not under src/).
A failed check makes the enclosing operation fail at once, before any later
statement runs (spec 4.1, 4.6: "Fails with `InvalidInput`"); `onFail` is the
failure the enclosing function reports, `body` the rest of the function. -/
def CHECK {α : Type} (cond : Prop) [Decidable cond] (onFail : α) (body : α) : α :=
  if cond then body else onFail

/-! ## Initialization -/

/-- The function `LogisticRegression2::init`: the returned pair is the status
(`0` success, `-1` failure) and the object after the call. -/
def LogisticRegression2.init {F : Type} [Zero F] [LE F] [DecidableRel (fun a b : F => a ≤ b)]
    (self : LogisticRegression2 F) (data : Database F) (feature_length : Int)
    (learning_rate : F) (epochs : Int) : Int × LogisticRegression2 F :=
  CHECK (data.samples.length = data.labels.length) (-1, self) <|
    let self1 := { self with m_ := toInt32 data.samples.length }
    if self1.m_ < 2 then (-1, self1)
    else if learning_rate ≤ 0 then (-1, self1)
    else if epochs < 1 then (-1, self1)
    else
      (0, { self1 with
              alpha_ := learning_rate
              epochs_ := epochs
              feature_length_ := feature_length
              data_ := some data
              o_ := resize self1.o_ self1.m_.toNat 0 })

/-- An object on which nothing has been called yet: empty vectors, no dataset,
zero counters (used as a concrete starting point in examples). -/
def blank : LogisticRegression2 ℚ :=
  { data_ := none, random_shuffle_ := [], error_ := 1 / 100000, epochs_ := 1000,
    alpha_ := 1 / 100000, w_ := [], b_ := 0, m_ := 0, feature_length_ := 0, o_ := [],
    activation_func_ := ActivationFunction.Sigmoid, loss_func_ := LossFunction.MSE,
    optim_ := Optimization.BGD, batch_size_ := 1 }

/-! ## Persistence -/

/-- One byte of a file. -/
abbrev Byte := Fin 256

/-- The object representation of a `float`: `sizeof(float)` = 4 bytes, and
reading back the bytes that were written gives the value that was written. -/
class FloatBytes (F : Type) where
  toBytes : F → List Byte
  ofBytes : List Byte → F
  toBytes_length : ∀ x : F, (toBytes x).length = 4
  ofBytes_toBytes : ∀ x : F, ofBytes (toBytes x) = x

/-- A `float` identified with its four bytes; the all-zero pattern is `0.0f`. -/
structure RawFloat where
  bytes : List Byte
  size_eq : bytes.length = 4
  deriving DecidableEq

instance : Zero RawFloat := ⟨⟨[0, 0, 0, 0], rfl⟩⟩

instance : FloatBytes RawFloat where
  toBytes x := x.bytes
  ofBytes bs := if h : bs.length = 4 then ⟨bs, h⟩ else 0
  toBytes_length x := x.size_eq
  ofBytes_toBytes x := by simp [x.size_eq]

/-- The byte number `k` (little-endian) of a natural number. -/
def byteAt (u : Nat) (k : Nat) : Byte :=
  ⟨u / 256 ^ k % 256, Nat.mod_lt _ (by decide)⟩

/-- The object representation of an `int` (4 bytes, little-endian, two's complement). -/
def int32ToBytes (n : Int) : List Byte :=
  let u := (n % 4294967296).toNat
  [byteAt u 0, byteAt u 1, byteAt u 2, byteAt u 3]

/-- The `int` whose object representation is the given four bytes. -/
def bytesToInt32 (bs : List Byte) : Int :=
  match bs with
  | [b0, b1, b2, b3] =>
    toInt32 ((b0.val + 256 * b1.val + 65536 * b2.val + 16777216 * b3.val : Nat) : Int)
  | _ => 0

/-- The floats stored in a buffer of `4 * n` bytes. -/
def decodeFloats {F : Type} [FloatBytes F] : Nat → List Byte → List F
  | 0, _ => []
  | n + 1, bs => FloatBytes.ofBytes (bs.take 4) :: decodeFloats n (bs.drop 4)

/-- The bytes of a buffer of floats (`(char*)w_.data()`). -/
def encodeFloats {F : Type} [FloatBytes F] (v : List F) : List Byte :=
  (v.map FloatBytes.toBytes).flatten

/-- An input file stream: the bytes not yet read and whether the stream is
still good. -/
structure IStream where
  bytes : List Byte
  good : Bool
  deriving DecidableEq

/-- One call `file.read(buf, n)`, `buf` being the `n` bytes the destination
holds before the call: returns the destination afterwards and the stream.  A
stream that has failed reads nothing; a short file fills the front of the
destination and fails the stream. -/
def IStream.read (s : IStream) (buf : List Byte) : List Byte × IStream :=
  if s.good then
    if buf.length ≤ s.bytes.length then
      (s.bytes.take buf.length, { bytes := s.bytes.drop buf.length, good := true })
    else
      (s.bytes ++ buf.drop s.bytes.length, { bytes := [], good := false })
  else (buf, s)

/-- The function `LogisticRegression2::store_model`; `writable` says whether the
file can be opened for writing.  Returns the status and the bytes of the file
written (`none`: no file was written). -/
def LogisticRegression2.store_model {F : Type} [FloatBytes F] (self : LogisticRegression2 F)
    (writable : Bool) : Int × Option (List Byte) :=
  if !writable then (-1, none)
  else
    let length : Int := toInt32 self.w_.length
    let file0 : List Byte := []
    let file1 := file0 ++ int32ToBytes length
    let file2 := file1 ++ encodeFloats self.w_
    let file3 := file2 ++ FloatBytes.toBytes self.b_
    (0, some file3)

/-- The function `LogisticRegression2::load_model`; `file` is the content of the
model file, `none` when it cannot be opened.  `w_.resize(length)` with a
negative `length` throws, the call then has no result. -/
def LogisticRegression2.load_model {F : Type} [Zero F] [FloatBytes F] (self : LogisticRegression2 F)
    (file : Option (List Byte)) : Option (Int × LogisticRegression2 F) :=
  match file with
  | none => some (-1, self)
  | some content =>
    let s0 : IStream := { bytes := content, good := true }
    let r1 := s0.read (int32ToBytes 0)
    let length : Int := bytesToInt32 r1.1
    if length < 0 then none
    else
      let w1 : List F := resize self.w_ length.toNat 0
      let r2 := r1.2.read (encodeFloats w1)
      let w2 : List F := decodeFloats w1.length r2.1
      let r3 := r2.2.read (FloatBytes.toBytes self.b_)
      some (0, { self with
                   w_ := w2
                   feature_length_ := length
                   b_ := FloatBytes.ofBytes r3.1 })

/-! ## Forward pass, cost and loss -/

section Numerics

variable {F : Type} [Zero F] [One F] [Add F] [Sub F] [Mul F] [Div F] [Neg F]
  [Pow F Nat] [IntCast F] [HasExp F]

/-- Element `i` of a vector indexed by an `int` (converted to `size_t`): no
result outside the vector. -/
def getAt {α : Type} (v : List α) (i : Int) : Option α :=
  if 0 ≤ i then v[i.toNat]? else none

/-- The function `LogisticRegression2::calculate_z`. -/
def LogisticRegression2.calculate_z (self : LogisticRegression2 F) (feature : List F) : Option F := do
  let z ← (List.range self.feature_length_.toNat).foldlM
    (fun (z : F) (i : Nat) => do
      let wi ← self.w_[i]?
      let fi ← feature[i]?
      pure (z + wi * fi))
    (0 : F)
  pure (z + self.b_)

/-- The function `LogisticRegression2::calculate_cost_function`. -/
def LogisticRegression2.calculate_cost_function (self : LogisticRegression2 F) : Option F := do
  let J ← (List.range self.m_.toNat).foldlM
    (fun (J : F) (i : Nat) => do
      let d ← self.data_
      let y ← d.labels[i]?
      let o ← self.o_[i]?
      pure (J + 1 / ((2 : Int) : F) * (y - o) ^ 2))
    (0 : F)
  pure (J / (self.m_ : F))

/-- The function `LogisticRegression2::calculate_activation_function`. -/
def LogisticRegression2.calculate_activation_function (self : LogisticRegression2 F) (value : F) : F :=
  match self.activation_func_ with
  | ActivationFunction.Sigmoid => 1 / (1 + HasExp.exp (-value))
  | ActivationFunction.other _ => 1 / (1 + HasExp.exp (-value))

/-- The function `LogisticRegression2::calculate_loss_function`. -/
def LogisticRegression2.calculate_loss_function (self : LogisticRegression2 F) : Option F := do
  let value ← (List.range self.m_.toNat).foldlM
    (fun (value : F) (i : Nat) => do
      let d ← self.data_
      let y ← d.labels[i]?
      let o ← self.o_[i]?
      pure (value + 1 / ((2 : Int) : F) * (y - o) ^ 2))
    (0 : F)
  pure (value / (self.m_ : F))

/-- The function `LogisticRegression2::calculate_loss_function_derivative()`
(the overload without arguments). -/
def LogisticRegression2.calculate_loss_function_derivative_all (self : LogisticRegression2 F) : Option F := do
  let value ← (List.range self.m_.toNat).foldlM
    (fun (value : F) (i : Nat) => do
      let o ← self.o_[i]?
      let d ← self.data_
      let y ← d.labels[i]?
      pure (value + (o - y)))
    (0 : F)
  pure (value / (self.m_ : F))

/-- The function
`LogisticRegression2::calculate_loss_function_derivative(predictive_value, true_value)`. -/
def LogisticRegression2.calculate_loss_function_derivative (self : LogisticRegression2 F)
    (predictive_value true_value : F) : F :=
  match self.loss_func_ with
  | LossFunction.MSE => predictive_value - true_value
  | LossFunction.other _ => predictive_value - true_value

/-- What a function guarded by `CHECK` hands back: its value, or the
`InvalidInput` failure of a failed check. -/
inductive Checked (α : Type) where
  | value (a : α)
  | invalidInput
  deriving DecidableEq, Repr

/-- The function `LogisticRegression2::predict`; `data` is the memory behind the
pointer and `feature_length` the declared length.  The function is `const`: it
returns a value and no new object. -/
def LogisticRegression2.predict (self : LogisticRegression2 F) (data : List F) (feature_length : Int) :
    Option (Checked F) :=
  CHECK (feature_length = self.feature_length_) (some Checked.invalidInput) <| do
    let value ← (List.range self.feature_length_.toNat).foldlM
      (fun (value : F) (t : Nat) => do
        let x ← data[t]?
        let w ← self.w_[t]?
        pure (value + x * w))
      (0 : F)
    pure (Checked.value (self.calculate_activation_function (value + self.b_)))

/-! ## Gradient engine -/

/-- The loop `for j < feature_length_: dw[j] += sample[j] * dz`. -/
def accumulate_dw (n : Nat) (dw : List F) (sample : List F) (dz : F) : Option (List F) :=
  (List.range n).foldlM
    (fun (dw : List F) (j : Nat) => do
      let xj ← sample[j]?
      let dwj ← dw[j]?
      pure (dw.set j (dwj + xj * dz)))
    dw

/-- The loop `for j < feature_length_: dw[j] /= len; w_[j] -= alpha_ * dw[j]`;
the state of the loop is the pair `(dw, w_)`. -/
def apply_dw (n : Nat) (alpha : F) (len : Int) (dw w : List F) :
    Option (List F × List F) :=
  (List.range n).foldlM
    (fun (st : List F × List F) (j : Nat) => do
      let dwj ← st.1[j]?
      let dw1 := st.1.set j (dwj / (len : F))
      let dwj1 ← dw1[j]?
      let wj ← st.2[j]?
      pure (dw1, st.2.set j (wj - alpha * dwj1)))
    (dw, w)

/-- The function `LogisticRegression2::calculate_gradient_descent(start, end)`.
The local vectors `z` and `dz` are written and read at one position per
iteration and appear as the local values `z`, `dz`; constructing a vector of
negative length throws. -/
def LogisticRegression2.calculate_gradient_descent (self : LogisticRegression2 F) (start end_ : Int) :
    Option (LogisticRegression2 F) :=
  if self.feature_length_ < 0 then none
  else
    let n := self.feature_length_.toNat
    let db0 : F := 0
    let dw0 : List F := List.replicate n 0
    match self.optim_ with
    | Optimization.SGD | Optimization.MBGD =>
      let len := end_ - start
      if len < 0 then none
      else do
        let acc ← (List.range len.toNat).foldlM
          (fun (st : List F × F) (x : Nat) => do
            let i : Int := start + x
            let d ← self.data_
            let idx ← getAt self.random_shuffle_ i
            let sample ← getAt d.samples idx
            let z ← self.calculate_z sample
            let y ← getAt d.labels idx
            let dz := self.calculate_loss_function_derivative
              (self.calculate_activation_function z) y
            let dw1 ← accumulate_dw n st.1 sample dz
            pure (dw1, st.2 + dz))
          (dw0, db0)
        let upd ← apply_dw n self.alpha_ len acc.1 self.w_
        pure { self with
                 w_ := upd.2
                 b_ := self.b_ - self.alpha_ * (acc.2 / (len : F)) }
    | Optimization.BGD =>
      if self.m_ < 0 then none
      else do
        let acc ← (List.range self.m_.toNat).foldlM
          (fun (st : List F × F × List F) (i : Nat) => do
            let d ← self.data_
            let sample ← d.samples[i]?
            let z ← self.calculate_z sample
            let _ ← st.2.2[i]?
            let oi := self.calculate_activation_function z
            let o1 := st.2.2.set i oi
            let y ← d.labels[i]?
            let dz := self.calculate_loss_function_derivative oi y
            let dw1 ← accumulate_dw n st.1 sample dz
            pure (dw1, st.2.1 + dz, o1))
          (dw0, db0, self.o_)
        let upd ← apply_dw n self.alpha_ self.m_ acc.1 self.w_
        pure { self with
                 w_ := upd.2
                 o_ := acc.2.2
                 b_ := self.b_ - self.alpha_ * (acc.2.1 / (self.m_ : F)) }

/-! ## Training loop -/

/-- Modelled from the spec: the random source collaborator
(`generator_real_random_number`, `generate_random`, `std::random_shuffle`,
`std::srand`, `std::time`: common.hpp and the standard library are not under
src/).  It "supplies uniformly distributed real numbers in a given range for
parameter initialization, and a shuffle operation over an index sequence":
`real k i` is the number written at position `i` by call number `k` of
`generator_real_random_number`, `shuffle iter v` is the vector `v` after the
shuffle of epoch `iter`, a rearrangement of `v`. -/
structure RandomSource (F : Type) where
  real : Nat → Nat → F
  shuffle : Nat → List Int → List Int
  shuffle_perm : ∀ (iter : Nat) (v : List Int), (shuffle iter v).Perm v

/-- One line printed to `stdout` by `train`: `epochs: %d, cost function: %f`
(`loop = none`) or `epochs: %d, loop: %d, cost function: %f`. -/
structure LogLine (F : Type) where
  epochs : Int
  loop : Option Int
  cost : F
  deriving DecidableEq, Repr

/-- What `train` leaves behind: the status returned, the object, the lines
printed and the model file written. -/
structure TrainResult (F : Type) where
  status : Int
  self : LogisticRegression2 F
  log : List (LogLine F)
  file : Option (List Byte)

variable [LT F] [DecidableRel (fun a b : F => a < b)]

/-- The local `loop` of `train`: `(m_ + batch_size_ - 1) / batch_size_`, the
number of batches of one epoch (`int` division truncates). -/
def batch_count (m batch_size : Int) : Int :=
  Int.tdiv (m + batch_size - 1) batch_size

/-- The local `start` of batch `i`: `i * batch_size_`. -/
def batch_start (i batch_size : Int) : Int :=
  i * batch_size

/-- The local `end` of batch `i`:
`start + batch_size_ > m_ ? m_ : start + batch_size_`. -/
def batch_end (i batch_size m : Int) : Int :=
  if batch_start i batch_size + batch_size > m then m else batch_start i batch_size + batch_size

/-- The epoch loop of the batch branch of `train`, from epoch `iter` on, with
`fuel` epochs left (`epochs_ - iter`). -/
def train_bgd_loop : Nat → Int → LogisticRegression2 F → List (LogLine F) →
    Option (LogisticRegression2 F × List (LogLine F))
  | 0, _, self, log => some (self, log)
  | fuel + 1, iter, self, log => do
    let self1 ← self.calculate_gradient_descent 0 0
    let cost_value ← self1.calculate_cost_function
    let log1 := log ++ [{ epochs := iter, loop := none, cost := cost_value }]
    if cost_value < self1.error_ then pure (self1, log1)
    else train_bgd_loop fuel (iter + 1) self1 log1

/-- The loop `for i < m_: o_[i] = calculate_activation_function(calculate_z(samples[i]))`. -/
def refresh_outputs (self : LogisticRegression2 F) : Option (LogisticRegression2 F) := do
  let o1 ← (List.range self.m_.toNat).foldlM
    (fun (o : List F) (i : Nat) => do
      let d ← self.data_
      let sample ← d.samples[i]?
      let z ← self.calculate_z sample
      let _ ← o[i]?
      pure (o.set i (self.calculate_activation_function z)))
    self.o_
  pure { self with o_ := o1 }

/-- The update of batch `i` (lines 60 to 65 of `train`): the gradient step on
the range of the batch, then the loop that refreshes the activation cache. -/
def batch_update (self : LogisticRegression2 F) (i : Int) : Option (LogisticRegression2 F) := do
  let start := batch_start i self.batch_size_
  let end_ := batch_end i self.batch_size_ self.m_
  let self1 ← self.calculate_gradient_descent start end_
  refresh_outputs self1

/-- The batch loop of one epoch of the stochastic/mini-batch branch of `train`,
from batch `i` on, with `fuel` batches left (`loop - i`); the third component of
the result is the variable `cost_value`. -/
def train_batch_loop (iter : Int) : Nat → Int → LogisticRegression2 F → List (LogLine F) →
    F → Option (LogisticRegression2 F × List (LogLine F) × F)
  | 0, _, self, log, cost_value => some (self, log, cost_value)
  | fuel + 1, i, self, log, _ => do
    let self2 ← batch_update self i
    let cost_value ← self2.calculate_cost_function
    let log1 := log ++ [{ epochs := iter, loop := some i, cost := cost_value }]
    if cost_value < self2.error_ then pure (self2, log1, cost_value)
    else train_batch_loop iter fuel (i + 1) self2 log1 cost_value

/-- The epoch loop of the stochastic/mini-batch branch of `train`; a division
by a zero `batch_size_` has no result. -/
def train_sgd_loop (rng : RandomSource F) : Nat → Int → LogisticRegression2 F →
    List (LogLine F) → F → Option (LogisticRegression2 F × List (LogLine F) × F)
  | 0, _, self, log, cost_value => some (self, log, cost_value)
  | fuel + 1, iter, self, log, cost_value =>
    let self1 := { self with random_shuffle_ := rng.shuffle iter.toNat self.random_shuffle_ }
    if self1.batch_size_ = 0 then none
    else do
      let loop := batch_count self1.m_ self1.batch_size_
      let r ← train_batch_loop iter loop.toNat 0 self1 log cost_value
      if r.2.2 < r.1.error_ then pure r
      else train_sgd_loop rng fuel (iter + 1) r.1 r.2.1 r.2.2

/-- The identity index `0, 1, ..., n - 1` that `train` builds before the first
shuffle (lines 49 to 51). -/
def identity_index (n : Nat) : List Int :=
  (List.range n).map (fun (i : Nat) => (i : Int))

/-- The object after lines 37 to 39 of `train`, for a feature length that is
not negative: `feature_length_` weights and the bias drawn by the random
source. -/
def LogisticRegression2.draw_parameters (self : LogisticRegression2 F) (rng : RandomSource F) :
    LogisticRegression2 F :=
  { self with
      w_ := (List.range self.feature_length_.toNat).map (rng.real 0)
      b_ := rng.real 1 0 }

/-- The part of `LogisticRegression2::train` that computes the parameters
(lines 37 to 73): the weights and the bias are drawn by the random source `rng`,
then the loop of the selected optimizer runs.  Returns the object and the lines
printed.  `w_.resize(feature_length_, 0.)` with a negative length throws. -/
def LogisticRegression2.train_parameters (self : LogisticRegression2 F) (rng : RandomSource F) :
    Option (LogisticRegression2 F × List (LogLine F)) :=
  if self.feature_length_ < 0 then none
  else
    let self2 := self.draw_parameters rng
    if self2.optim_ = Optimization.BGD then
      train_bgd_loop self2.epochs_.toNat 0 self2 []
    else do
      let d ← self2.data_
      let self3 := { self2 with random_shuffle_ := identity_index d.samples.length }
      let r ← train_sgd_loop rng self3.epochs_.toNat 0 self3 [] 0
      pure (r.1, r.2.1)

/-- The function `LogisticRegression2::train`; `rng` is the random source and
`writable` says whether the model file can be opened for writing: the
parameters are computed, then `CHECK(store_model(model) == 0)` stores them. -/
def LogisticRegression2.train [FloatBytes F] (self : LogisticRegression2 F)
    (rng : RandomSource F) (writable : Bool) : Option (TrainResult F) :=
  match self.train_parameters rng with
  | none => none
  | some (self4, log) =>
    let stored := self4.store_model writable
    CHECK (stored.1 = 0)
      (some { status := -1, self := self4, log := log, file := stored.2 })
      (some { status := 0, self := self4, log := log, file := stored.2 })

/-- The state after `k` consecutive updates of the batch variant. -/
def bgd_updates : Nat → LogisticRegression2 F → Option (LogisticRegression2 F)
  | 0, self => some self
  | k + 1, self => do
    let self1 ← self.calculate_gradient_descent 0 0
    bgd_updates k self1

/-- The state after the updates of the `k` batches `i`, `i + 1`, ... of one epoch. -/
def batch_updates : Nat → Int → LogisticRegression2 F → Option (LogisticRegression2 F)
  | 0, _, self => some self
  | k + 1, i, self => do
    let self1 ← batch_update self i
    batch_updates k (i + 1) self1

/-- The state after `e` whole epochs of the stochastic/mini-batch variant,
starting with epoch `iter`: every epoch shuffles the index and updates on each
of its batches. -/
def epoch_updates (rng : RandomSource F) : Nat → Int → LogisticRegression2 F →
    Option (LogisticRegression2 F)
  | 0, _, self => some self
  | e + 1, iter, self => do
    let self1 := { self with random_shuffle_ := rng.shuffle iter.toNat self.random_shuffle_ }
    let self2 ← batch_updates (batch_count self1.m_ self1.batch_size_).toNat 0 self1
    epoch_updates rng e (iter + 1) self2

/-- The state after `e` whole epochs and the first `k` batches of the next
epoch (`k = 0`: the next epoch has not begun), starting with epoch `iter`. -/
def sgd_updates (rng : RandomSource F) (e k : Nat) (iter : Int) (self : LogisticRegression2 F) :
    Option (LogisticRegression2 F) := do
  let self1 ← epoch_updates rng e iter self
  if k = 0 then pure self1
  else
    batch_updates k 0
      { self1 with random_shuffle_ := rng.shuffle (iter + e).toNat self1.random_shuffle_ }

end Numerics

/-! ## The formulas of the specification -/

section Formulas

variable {F : Type} [Field F] [HasExp F]

/-- Specification side: the logistic function `sigmoid(v) = 1/(1+exp(-v))`. -/
def sigmoid (v : F) : F :=
  1 / (1 + HasExp.exp (-v))

/-- Specification side: `dot(w, x)` over the first `n` positions. -/
def dot (n : Nat) (w x : List F) : F :=
  ∑ t in Finset.range n, w.getD t 0 * x.getD t 0

/-- Specification side: the feature vector `x_i` of sample `i`. -/
def Database.x {F : Type} (d : Database F) (i : Nat) : List F :=
  d.samples.getD i []

/-- Specification side: the label `y_i` of sample `i`. -/
def Database.y {F : Type} [Zero F] (d : Database F) (i : Nat) : F :=
  d.labels.getD i 0

/-- Specification side: the forward output `sigmoid(w.x_i + b)` of sample `i`
for `n` weights `w` and bias `b`. -/
def spec_output (n : Nat) (w : List F) (b : F) (d : Database F) (i : Nat) : F :=
  sigmoid (dot n w (d.x i) + b)

/-- Specification side: the error term `sigmoid(w.x_i + b) - y_i` of sample `i`. -/
def spec_delta (n : Nat) (w : List F) (b : F) (d : Database F) (i : Nat) : F :=
  spec_output n w b d i - d.y i

/-- Specification side: `dw[j] = (1/len) * sum over the range of x_i[j] * (sigmoid(w.x_i + b) - y_i)`,
the range being the samples `idx 0`, ..., `idx (len - 1)`. -/
def spec_dw (n : Nat) (w : List F) (b : F) (d : Database F) (idx : Nat → Nat) (len : Nat)
    (j : Nat) : F :=
  1 / (len : F) * ∑ k in Finset.range len, (d.x (idx k)).getD j 0 * spec_delta n w b d (idx k)

/-- Specification side: `db = (1/len) * sum over the range of (sigmoid(w.x_i + b) - y_i)`. -/
def spec_db (n : Nat) (w : List F) (b : F) (d : Database F) (idx : Nat → Nat) (len : Nat) : F :=
  1 / (len : F) * ∑ k in Finset.range len, spec_delta n w b d (idx k)

/-- Specification side: the cost `(1/m) * sum_{i<m} 1/2*(y_i - a_i)^2` of outputs `a`. -/
def spec_cost (m : Nat) (d : Database F) (a : Nat → F) : F :=
  1 / (m : F) * ∑ i in Finset.range m, 1 / 2 * (d.y i - a i) ^ 2

/-- The weight vector after `w[j] -= alpha * dw[j]` for every `j < n`. -/
def updated_weights (n : Nat) (w : List F) (alpha : F) (dw : Nat → F) : List F :=
  (List.range w.length).map (fun j => if j < n then w.getD j 0 - alpha * dw j else w.getD j 0)

/-- The sample index read at position `k` of the range that starts at `start`:
`random_shuffle_[start + k]` in the stochastic/mini-batch branch, `k` itself in
the batch branch. -/
def LogisticRegression2.range_index {F : Type} (self : LogisticRegression2 F) (start : Int)
    (k : Nat) : Nat :=
  match self.optim_ with
  | Optimization.BGD => k
  | _ => (self.random_shuffle_.getD (start + k).toNat 0).toNat

/-- The length of the range of one call of `calculate_gradient_descent`:
`end - start` in the stochastic/mini-batch branch, `m_` in the batch branch. -/
def LogisticRegression2.range_len {F : Type} (self : LogisticRegression2 F) (start end_ : Int) : Int :=
  match self.optim_ with
  | Optimization.BGD => self.m_
  | _ => end_ - start

end Formulas

/-- Specification side: the range-averaged loss
`L(w,b) = (1/len) * sum over the range of 1/2*(y_i - sigmoid(w.x_i + b))^2`,
the range being the samples `idx 0`, ..., `idx (len - 1)`. -/
def spec_loss {F : Type} [Field F] [HasExp F] (n : Nat) (d : Database F) (idx : Nat → Nat)
    (len : Nat) (w : List F) (b : F) : F :=
  1 / (len : F) * ∑ k in Finset.range len, 1 / 2 * (d.y (idx k) - spec_output n w b d (idx k)) ^ 2

/-! ## The positions read in one epoch -/

/-- A state whose stored dataset `d` covers every index that training uses: at
least `m_` samples, a label for every sample, an activation cache of at least
`m_` values, and at least `feature_length_` values in every sample. -/
structure TrainReady {F : Type} (s : LogisticRegression2 F) (d : Database F) : Prop where
  data : s.data_ = some d
  fl_nonneg : 0 ≤ s.feature_length_
  m_pos : 1 ≤ s.m_
  samples_len : s.m_.toNat ≤ d.samples.length
  labels_len : d.samples.length ≤ d.labels.length
  o_len : s.m_.toNat ≤ s.o_.length
  x_len : ∀ i, i < d.samples.length → s.feature_length_.toNat ≤ (d.x i).length

/-- Two states that differ at most in the weights, the bias, the content of the
activation cache and the order of the shuffle index. -/
structure SameConfig {F : Type} (a b : LogisticRegression2 F) : Prop where
  data : a.data_ = b.data_
  error : a.error_ = b.error_
  epochs : a.epochs_ = b.epochs_
  alpha : a.alpha_ = b.alpha_
  m : a.m_ = b.m_
  feature_length : a.feature_length_ = b.feature_length_
  activation_func : a.activation_func_ = b.activation_func_
  loss_func : a.loss_func_ = b.loss_func_
  optim : a.optim_ = b.optim_
  batch_size : a.batch_size_ = b.batch_size_
  w_len : a.w_.length = b.w_.length
  o_len : a.o_.length = b.o_.length
  shuffle : a.random_shuffle_.Perm b.random_shuffle_

/-! ## Concrete objects used as examples -/

/-- The exponential function of exact real arithmetic. -/
noncomputable instance : HasExp ℝ := ⟨Real.exp⟩

/-- An object over raw floats holding two weights and a bias. -/
def rawModel : LogisticRegression2 RawFloat :=
  { data_ := none, random_shuffle_ := [], error_ := 0, epochs_ := 1000, alpha_ := 0,
    w_ := [⟨[1, 2, 3, 4], rfl⟩, ⟨[5, 6, 7, 8], rfl⟩], b_ := ⟨[9, 10, 11, 12], rfl⟩,
    m_ := 0, feature_length_ := 2, o_ := [],
    activation_func_ := ActivationFunction.Sigmoid, loss_func_ := LossFunction.MSE,
    optim_ := Optimization.BGD, batch_size_ := 1 }

/-- An object over raw floats on which nothing has been called yet. -/
def rawBlank : LogisticRegression2 RawFloat :=
  { data_ := none, random_shuffle_ := [], error_ := 0, epochs_ := 1000, alpha_ := 0,
    w_ := [], b_ := 0, m_ := 0, feature_length_ := 0, o_ := [],
    activation_func_ := ActivationFunction.Sigmoid, loss_func_ := LossFunction.MSE,
    optim_ := Optimization.BGD, batch_size_ := 1 }

/-- An object over the reals holding two weights and a bias. -/
def realModel : LogisticRegression2 ℝ :=
  { data_ := none, random_shuffle_ := [], error_ := 0, epochs_ := 1000, alpha_ := 1,
    w_ := [1, 2], b_ := 3, m_ := 0, feature_length_ := 2, o_ := [],
    activation_func_ := ActivationFunction.Sigmoid, loss_func_ := LossFunction.MSE,
    optim_ := Optimization.BGD, batch_size_ := 1 }

/-- An object over the rationals with a stored dataset of two samples and a
filled activation cache. -/
def cachedModel : LogisticRegression2 ℚ :=
  { blank with
      data_ := some ⟨[[1, 2], [3, 4]], [0, 1]⟩, m_ := 2, feature_length_ := 2,
      o_ := [1 / 2, 1] }

/-- An object over the reals as `init` and the parameter initialization of
`train` leave it for the batch variant: two samples `[0]` with label `1`, one
weight `0`, bias `0`, learning rate `1`. -/
def bgdState : LogisticRegression2 ℝ :=
  { data_ := some ⟨[[0], [0]], [1, 1]⟩, random_shuffle_ := [], error_ := 0, epochs_ := 1,
    alpha_ := 1, w_ := [0], b_ := 0, m_ := 2, feature_length_ := 1, o_ := [0, 0],
    activation_func_ := ActivationFunction.Sigmoid, loss_func_ := LossFunction.MSE,
    optim_ := Optimization.BGD, batch_size_ := 1 }

/-- The same object for the stochastic variant, with a shuffled index. -/
def sgdState : LogisticRegression2 ℝ :=
  { bgdState with optim_ := Optimization.SGD, random_shuffle_ := [1, 0] }

/-- The object `bgdState` for the stochastic variant, with the identity as
shuffle index. -/
def sgdIdentityState : LogisticRegression2 ℝ :=
  { bgdState with optim_ := Optimization.SGD, random_shuffle_ := [0, 1] }

/-- An object over the reals on which nothing has been called yet, configured
for the batch variant. -/
def freshReal : LogisticRegression2 ℝ :=
  { data_ := none, random_shuffle_ := [], error_ := 0, epochs_ := 1000, alpha_ := 0,
    w_ := [], b_ := 0, m_ := 0, feature_length_ := 0, o_ := [],
    activation_func_ := ActivationFunction.Sigmoid, loss_func_ := LossFunction.MSE,
    optim_ := Optimization.BGD, batch_size_ := 1 }

/-- A random source that draws `0` for every parameter and whose shuffle leaves
the index in place. -/
def zeroSource : RandomSource ℝ :=
  { real := fun _ _ => 0, shuffle := fun _ v => v, shuffle_perm := fun _ v => List.Perm.refl v }

/-- The dataset of the examples: two samples `[0]`, both with label `1`. -/
def twoSamples : Database ℝ :=
  { samples := [[0], [0]], labels := [1, 1] }

/-- The object that `freshReal.init twoSamples 1 1 1` leaves: two samples, one
feature, learning rate 1, one epoch, a cache of two zeros and no weights. -/
def initReal : LogisticRegression2 ℝ :=
  { freshReal with
      data_ := some twoSamples, m_ := 2, feature_length_ := 1, alpha_ := 1, epochs_ := 1,
      o_ := [0, 0] }

/-- The narrowing of a number to `float` as far as underflow goes: a magnitude
of at most `2^-150`, half the smallest positive `float` `2^-149`, is rounded to
zero (round to nearest, ties to even); every other number is left as it is. -/
def narrow (x : ℚ) : ℚ :=
  if |x| ≤ 1 / 2 ^ 150 then 0 else x

/-- A `float` of which only the underflow is modelled: a value is a rational
number and the operations are exact, except that a sum is narrowed when it is
stored, as in `J += ...` on the `float` accumulator `J`.  The rounding of the
mantissa is not modelled. -/
structure UnderflowFloat where
  val : ℚ
  deriving DecidableEq

instance : Zero UnderflowFloat := ⟨⟨0⟩⟩

instance : One UnderflowFloat := ⟨⟨1⟩⟩

instance : Add UnderflowFloat := ⟨fun a b => ⟨narrow (a.val + b.val)⟩⟩

instance : Sub UnderflowFloat := ⟨fun a b => ⟨a.val - b.val⟩⟩

instance : Mul UnderflowFloat := ⟨fun a b => ⟨a.val * b.val⟩⟩

instance : Div UnderflowFloat := ⟨fun a b => ⟨a.val / b.val⟩⟩

instance : Pow UnderflowFloat Nat := ⟨fun a n => ⟨a.val ^ n⟩⟩

instance : IntCast UnderflowFloat := ⟨fun n => ⟨(n : ℚ)⟩⟩

/-- An object over `UnderflowFloat` with one sample of label `0` whose cached
output is `2^-100`. -/
def underflowModel : LogisticRegression2 UnderflowFloat :=
  { data_ := some ⟨[[]], [0]⟩, random_shuffle_ := [], error_ := 0, epochs_ := 1, alpha_ := 1,
    w_ := [], b_ := 0, m_ := 1, feature_length_ := 0, o_ := [⟨1 / 2 ^ 100⟩],
    activation_func_ := ActivationFunction.Sigmoid, loss_func_ := LossFunction.MSE,
    optim_ := Optimization.BGD, batch_size_ := 1 }

/-! # Theorems -/

/-! ## Initialization (C1, C2) -/

theorem toInt32_of_lt {n : Nat} (h : n < 2147483648) : toInt32 (n : Int) = n := by
  unfold toInt32
  omega

/-- C1 (as stated, refuted): a dataset of 2^31 samples and 2^31 labels with
learning rate 1 and one epoch meets none of the four rejection conditions, yet
`init` reports failure: the sample count does not fit the `int` member `m_`. -/
theorem init_rejects_two_pow_31_samples :
    (blank.init ⟨List.replicate 2147483648 [], List.replicate 2147483648 0⟩ 0 1 1).1 = -1
      ∧ (List.replicate 2147483648 ([] : List ℚ)).length
          = (List.replicate 2147483648 (0 : ℚ)).length
      ∧ ¬ (List.replicate 2147483648 ([] : List ℚ)).length < 2
      ∧ ¬ (1 : ℚ) ≤ 0
      ∧ ¬ (1 : Int) < 1 := by
  have hw : toInt32 ((2147483648 : Nat) : Int) = -2147483648 := by decide
  refine ⟨?_, ?_, ?_, by norm_num, by decide⟩
  · simp only [LogisticRegression2.init, CHECK, List.length_replicate, if_true, hw]
    rfl
  · simp only [List.length_replicate]
  · simp only [List.length_replicate]
    decide

/-- C1 (amended): for a dataset of fewer than 2^31 samples, `init` reports
failure (status -1) exactly when the sample count differs from the label count,
or the sample count is < 2, or the learning rate is <= 0, or the epoch count is
< 1, and returns success (status 0) in every other case. -/
theorem init_status {F : Type} [Zero F] [LE F] [DecidableRel (fun a b : F => a ≤ b)]
    (self : LogisticRegression2 F) (data : Database F) (feature_length : Int)
    (learning_rate : F) (epochs : Int) (hsize : data.samples.length < 2147483648) :
    (self.init data feature_length learning_rate epochs).1
      = if data.samples.length ≠ data.labels.length ∨ data.samples.length < 2
            ∨ learning_rate ≤ 0 ∨ epochs < 1 then -1 else 0 := by
  have hm : toInt32 (data.samples.length : Int) = data.samples.length := toInt32_of_lt hsize
  have h2 : (data.samples.length : Int) < 2 ↔ data.samples.length < 2 := by omega
  unfold LogisticRegression2.init CHECK
  simp only [hm, h2]
  split_ifs <;> simp_all
  omega

/-- Witness of `init_status` at the boundary inputs of the spec: one sample,
learning rate 0, a negative learning rate and zero epochs are each rejected,
and a two sample dataset with positive rate and one epoch is accepted. -/
theorem init_status_witness :
    (blank.init ⟨[[1, 2]], [0]⟩ 2 (1 / 10) 5).1 = -1
      ∧ (blank.init ⟨[[1, 2], [3, 4]], [0, 1]⟩ 2 0 5).1 = -1
      ∧ (blank.init ⟨[[1, 2], [3, 4]], [0, 1]⟩ 2 (-1 / 10) 5).1 = -1
      ∧ (blank.init ⟨[[1, 2], [3, 4]], [0, 1]⟩ 2 (1 / 10) 0).1 = -1
      ∧ (blank.init ⟨[[1, 2], [3, 4]], [0, 1]⟩ 2 (1 / 10) 1).1 = 0 := by
  refine ⟨?_, ?_, ?_, ?_, ?_⟩
  · rw [init_status blank ⟨[[1, 2]], [0]⟩ 2 (1 / 10) 5 (by decide)]; norm_num
  · rw [init_status blank ⟨[[1, 2], [3, 4]], [0, 1]⟩ 2 0 5 (by decide)]; norm_num
  · rw [init_status blank ⟨[[1, 2], [3, 4]], [0, 1]⟩ 2 (-1 / 10) 5 (by decide)]; norm_num
  · rw [init_status blank ⟨[[1, 2], [3, 4]], [0, 1]⟩ 2 (1 / 10) 0 (by decide)]; norm_num
  · rw [init_status blank ⟨[[1, 2], [3, 4]], [0, 1]⟩ 2 (1 / 10) 1 (by decide)]; norm_num

/-- C2 (evaluation at the failing input): on a fresh object (`m_ = 0`) `init`
with a one sample dataset is rejected, and the object it leaves has `m_ = 1`:
`m_` is assigned before the validation, so the rejected call has changed the
model state. -/
theorem init_rejection_overwrites_m :
    blank.init ⟨[[1, 2]], [0]⟩ 2 (1 / 10) 5 = (-1, { blank with m_ := 1 })
      ∧ blank.m_ = 0
      ∧ (blank.init ⟨[[1, 2]], [0]⟩ 2 (1 / 10) 5).2 ≠ blank := by
  have h : blank.init ⟨[[1, 2]], [0]⟩ 2 (1 / 10) 5 = (-1, { blank with m_ := 1 }) := by
    simp [LogisticRegression2.init, CHECK, toInt32]
  refine ⟨h, rfl, ?_⟩
  rw [h]
  intro hc
  have := congrArg LogisticRegression2.m_ hc
  simp [blank] at this

/-- Whatever `init` rejects, the only member it may have changed is `m_`: the
learning rate, epoch count, feature length, dataset, activation cache, weights
and bias are those of before the call. -/
theorem init_rejection_frame {F : Type} [Zero F] [LE F] [DecidableRel (fun a b : F => a ≤ b)]
    (self : LogisticRegression2 F) (data : Database F) (feature_length : Int)
    (learning_rate : F) (epochs : Int)
    (hfail : (self.init data feature_length learning_rate epochs).1 ≠ 0) :
    (self.init data feature_length learning_rate epochs).2
        = { self with m_ := (self.init data feature_length learning_rate epochs).2.m_ } := by
  unfold LogisticRegression2.init CHECK at hfail ⊢
  dsimp only at hfail ⊢
  split_ifs at hfail ⊢
  · rfl
  · rfl
  · rfl
  · exact absurd rfl hfail
  · rfl

/-! ## Persistence (C3, C10) -/

/-- After `resize(n)` a vector has `n` elements. -/
theorem resize_length {α : Type} (v : List α) (n : Nat) (fill : α) :
    (resize v n fill).length = n := by
  unfold resize
  simp only [List.length_append, List.length_take, List.length_replicate]
  omega

theorem encodeFloats_nil {F : Type} [FloatBytes F] : encodeFloats ([] : List F) = [] := rfl

theorem encodeFloats_cons {F : Type} [FloatBytes F] (x : F) (v : List F) :
    encodeFloats (x :: v) = FloatBytes.toBytes x ++ encodeFloats v := by
  simp [encodeFloats]

/-- A buffer of floats occupies four bytes per element. -/
theorem encodeFloats_length {F : Type} [FloatBytes F] (v : List F) :
    (encodeFloats v).length = 4 * v.length := by
  induction v with
  | nil => rfl
  | cons x v ih =>
    rw [encodeFloats_cons, List.length_append, ih, FloatBytes.toBytes_length, List.length_cons]
    omega

/-- Reading back the bytes of a buffer of floats gives the floats. -/
theorem decodeFloats_encodeFloats {F : Type} [FloatBytes F] (v : List F) (rest : List Byte) :
    decodeFloats v.length (encodeFloats v ++ rest) = v := by
  induction v with
  | nil => rfl
  | cons x v ih =>
    have h4 : (FloatBytes.toBytes x).length = 4 := FloatBytes.toBytes_length x
    rw [encodeFloats_cons, List.length_cons, decodeFloats, List.append_assoc]
    rw [List.take_left' h4, List.drop_left' h4, ih, FloatBytes.ofBytes_toBytes]

theorem int32ToBytes_length (n : Int) : (int32ToBytes n).length = 4 := rfl

/-- Reading back the four bytes of an `int` gives the `int`. -/
theorem bytesToInt32_int32ToBytes (n : Int) : bytesToInt32 (int32ToBytes n) = toInt32 n := by
  unfold int32ToBytes bytesToInt32 byteAt toInt32
  simp only []
  omega

theorem toInt32_toInt32 (n : Int) : toInt32 (toInt32 n) = toInt32 n := by
  unfold toInt32
  omega

/-- A read of `n` bytes from a good stream that holds at least `n` bytes
delivers the first `n` bytes and leaves the stream good. -/
theorem IStream.read_prefix (a b buf : List Byte) (h : buf.length = a.length) :
    IStream.read { bytes := a ++ b, good := true } buf = (a, { bytes := b, good := true }) := by
  unfold IStream.read
  have hle : buf.length ≤ (a ++ b).length := by simp [h]
  simp only [if_true, hle]
  rw [h, List.take_left, List.drop_left]


/-- The bytes `store_model` writes when the file can be opened. -/
theorem store_model_bytes {F : Type} [FloatBytes F] (self : LogisticRegression2 F) :
    self.store_model true
      = (0, some (int32ToBytes (toInt32 self.w_.length) ++ encodeFloats self.w_
                    ++ FloatBytes.toBytes self.b_)) := by
  simp [LogisticRegression2.store_model]

/-- C3: for every weight vector `w` of a length `N` representable as a 32 bit
signed integer and every bias `b`, `store_model` succeeds and `load_model`, run
(on any object) on the bytes it wrote, succeeds with a weight vector equal to
`w`, bias equal to `b` and feature length equal to `N`; no other member of the
loading object changes. -/
theorem store_load_roundtrip {F : Type} [Zero F] [FloatBytes F]
    (stored loaded : LogisticRegression2 F) (hN : stored.w_.length < 2147483648) :
    (stored.store_model true).1 = 0
      ∧ loaded.load_model (stored.store_model true).2
          = some (0, { loaded with
                         w_ := stored.w_
                         feature_length_ := (stored.w_.length : Int)
                         b_ := stored.b_ }) := by
  have hlen : bytesToInt32 (int32ToBytes (toInt32 (stored.w_.length : Int)))
      = (stored.w_.length : Int) := by
    rw [bytesToInt32_int32ToBytes, toInt32_toInt32, toInt32_of_lt hN]
  rw [store_model_bytes]
  refine ⟨rfl, ?_⟩
  unfold LogisticRegression2.load_model
  simp only [List.append_assoc]
  rw [IStream.read_prefix _ _ _ (by simp [int32ToBytes_length])]
  simp only [hlen]
  have hneg : ¬ ((stored.w_.length : Int) < 0) := by omega
  rw [if_neg hneg]
  simp only [Int.toNat_ofNat]
  rw [IStream.read_prefix _ _ _ (by simp [encodeFloats_length, resize_length])]
  have hb := IStream.read_prefix (FloatBytes.toBytes stored.b_) [] (FloatBytes.toBytes loaded.b_)
    (by simp [FloatBytes.toBytes_length])
  rw [List.append_nil] at hb
  simp only [hb, resize_length, FloatBytes.ofBytes_toBytes]
  have := decodeFloats_encodeFloats stored.w_ []
  rw [List.append_nil] at this
  rw [this]


/-- The four bytes at offset `4 * j` of a buffer of floats are those of element `j`. -/
theorem encodeFloats_slice {F : Type} [FloatBytes F] (v : List F) (rest : List Byte)
    (j : Nat) (hj : j < v.length) :
    ((encodeFloats v ++ rest).drop (4 * j)).take 4 = FloatBytes.toBytes (v.get ⟨j, hj⟩) := by
  induction v generalizing j with
  | nil => simp at hj
  | cons x v ih =>
    have h4 : (FloatBytes.toBytes x).length = 4 := FloatBytes.toBytes_length x
    rw [encodeFloats_cons, List.append_assoc]
    cases j with
    | zero =>
      simp only [Nat.mul_zero, List.drop_zero]
      rw [List.take_left' h4]
      rfl
    | succ k =>
      have hk : k < v.length := by simpa using hj
      have : 4 * (k + 1) = 4 + 4 * k := by omega
      rw [this, ← List.drop_drop, List.drop_left' h4, ih k hk]
      rfl

/-- C10: for every weight vector of length `N` and bias, `store_model` writes
exactly `4 + 4 * N + 4` bytes: the four bytes of the `int` `N` (they read back
as `N` whenever `N` fits an `int`), then at offset `4 + 4 * j` the four bytes of
weight `j`, for every `j < N` in index order, then at offset `4 + 4 * N` the
four bytes of the bias, and nothing else. -/
theorem store_model_layout {F : Type} [FloatBytes F] (self : LogisticRegression2 F) :
    ∃ file : List Byte,
      self.store_model true = (0, some file)
        ∧ file = int32ToBytes (self.w_.length : Int) ++ encodeFloats self.w_
                  ++ FloatBytes.toBytes self.b_
        ∧ file.length = 4 + 4 * self.w_.length + 4
        ∧ (self.w_.length < 2147483648 → bytesToInt32 (file.take 4) = (self.w_.length : Int))
        ∧ (∀ (j : Nat) (hj : j < self.w_.length),
            (FloatBytes.ofBytes ((file.drop (4 + 4 * j)).take 4) : F) = self.w_.get ⟨j, hj⟩)
        ∧ (FloatBytes.ofBytes ((file.drop (4 + 4 * self.w_.length)).take 4) : F) = self.b_ := by
  have hhead : int32ToBytes (toInt32 (self.w_.length : Int)) = int32ToBytes (self.w_.length : Int) := by
    unfold int32ToBytes toInt32
    have : (((self.w_.length : Int) + 2147483648) % 4294967296 - 2147483648) % 4294967296
        = (self.w_.length : Int) % 4294967296 := by omega
    simp only [this]
  refine ⟨_, store_model_bytes self, ?_, ?_, ?_, ?_, ?_⟩
  · rw [hhead]
  · simp only [List.length_append, int32ToBytes_length, encodeFloats_length,
      FloatBytes.toBytes_length]
  · intro hN
    rw [List.append_assoc, List.take_left' (int32ToBytes_length _), bytesToInt32_int32ToBytes,
      toInt32_toInt32, toInt32_of_lt hN]
  · intro j hj
    rw [List.append_assoc, ← List.drop_drop, List.drop_left' (int32ToBytes_length _),
      encodeFloats_slice _ _ j hj, FloatBytes.ofBytes_toBytes]
  · rw [← List.drop_drop, List.append_assoc, List.drop_left' (int32ToBytes_length _),
      List.drop_left' (encodeFloats_length _), List.take_of_length_le (by simp [FloatBytes.toBytes_length]),
      FloatBytes.ofBytes_toBytes]


/-- Witness of `store_load_roundtrip`: the two-weight object `rawModel`, stored
and loaded into the fresh object `rawBlank`. -/
theorem store_load_roundtrip_witness :
    rawModel.w_.length < 2147483648
      ∧ (rawModel.store_model true).1 = 0
      ∧ rawBlank.load_model (rawModel.store_model true).2
          = some (0, { rawBlank with
                         w_ := rawModel.w_
                         feature_length_ := (rawModel.w_.length : Int)
                         b_ := rawModel.b_ }) :=
  ⟨by decide, store_load_roundtrip rawModel rawBlank (by decide)⟩

/-- Witness of `store_model_layout`: the file written for `rawModel` is the
length 2, the two weights and the bias, sixteen bytes in all. -/
theorem store_model_layout_witness :
    (rawModel.store_model true).2
      = some [2, 0, 0, 0, 1, 2, 3, 4, 5, 6, 7, 8, 9, 10, 11, 12] := by
  obtain ⟨file, h1, h2, -⟩ := store_model_layout rawModel
  rw [h1, h2]
  rfl

/-! ## Evaluation of the loops -/

/-- A loop over `0 .. n-1` whose state after `i` iterations is `c i`. -/
theorem foldlM_range_closed {σ : Type} (f : σ → Nat → Option σ) (c : Nat → σ) (n : Nat)
    (init final : σ) (h0 : c 0 = init) (hn : c n = final)
    (hstep : ∀ i, i < n → f (c i) i = some (c (i + 1))) :
    (List.range n).foldlM f init = some final := by
  subst h0 hn
  induction n with
  | zero => rfl
  | succ k ih =>
    rw [List.range_succ, List.foldlM_append, ih (fun i hi => hstep i (Nat.lt_succ_of_lt hi))]
    simp [hstep k (Nat.lt_succ_self k)]

theorem map_range_set {α : Type} (n : Nat) (h : Nat → α) (j : Nat) (v : α) :
    ((List.range n).map h).set j v = (List.range n).map (fun t => if t = j then v else h t) := by
  apply List.ext_getElem
  · simp
  · intro i h1 h2
    simp only [List.length_map, List.length_range] at h2
    simp only [List.getElem_set, List.getElem_map, List.getElem_range]
    by_cases hij : j = i
    · simp [hij]
    · have : ¬ i = j := fun h => hij h.symm
      simp [hij, this]

theorem map_range_getElem? {α : Type} (n : Nat) (h : Nat → α) (j : Nat) (hj : j < n) :
    ((List.range n).map h)[j]? = some (h j) := by
  simp [List.getElem?_map, List.getElem?_range hj]

theorem eq_map_range_getD {α : Type} (w : List α) (dflt : α) :
    w = (List.range w.length).map (fun t => w.getD t dflt) := by
  apply List.ext_getElem
  · simp
  · intro i h1 h2
    simp [List.getD_eq_getElem?_getD, List.getElem?_eq_getElem h1]

theorem getElem?_eq_some_getD {α : Type} (w : List α) (dflt : α) (i : Nat) (h : i < w.length) :
    w[i]? = some (w.getD i dflt) := by
  simp [List.getD_eq_getElem?_getD, List.getElem?_eq_getElem h]

section Eval
variable {F : Type} [Field F]

theorem calculate_activation_function_eq [HasExp F] (self : LogisticRegression2 F) (v : F) :
    self.calculate_activation_function v = sigmoid v := by
  unfold LogisticRegression2.calculate_activation_function sigmoid
  cases self.activation_func_ <;> rfl

theorem calculate_loss_function_derivative_eq (self : LogisticRegression2 F) (p t : F) :
    self.calculate_loss_function_derivative p t = p - t := by
  unfold LogisticRegression2.calculate_loss_function_derivative
  cases self.loss_func_ <;> rfl

theorem calculate_z_eq (self : LogisticRegression2 F) (x : List F)
    (hw : self.feature_length_.toNat ≤ self.w_.length)
    (hx : self.feature_length_.toNat ≤ x.length) :
    self.calculate_z x = some (dot self.feature_length_.toNat self.w_ x + self.b_) := by
  unfold LogisticRegression2.calculate_z
  rw [foldlM_range_closed _ (fun i => ∑ t in Finset.range i, self.w_.getD t 0 * x.getD t 0)
    self.feature_length_.toNat 0 (dot self.feature_length_.toNat self.w_ x) (by simp) rfl]
  · rfl
  · intro i hi
    rw [getElem?_eq_some_getD self.w_ 0 i (by omega), getElem?_eq_some_getD x 0 i (by omega)]
    simp [Finset.sum_range_succ]

theorem accumulate_dw_eq (n : Nat) (g : Nat → F) (sample : List F) (dz : F)
    (h : n ≤ sample.length) :
    accumulate_dw n ((List.range n).map g) sample dz
      = some ((List.range n).map (fun j => g j + sample.getD j 0 * dz)) := by
  unfold accumulate_dw
  apply foldlM_range_closed _
    (fun j => (List.range n).map (fun t => if t < j then g t + sample.getD t 0 * dz else g t))
  · simp
  · apply List.map_congr_left
    intro t ht
    simp [List.mem_range.mp ht]
  · intro j hj
    rw [getElem?_eq_some_getD sample 0 j (by omega), map_range_getElem? n _ j hj]
    simp only [Option.bind_eq_bind, Option.some_bind, map_range_set, lt_irrefl, if_false]
    congr 1
    apply List.map_congr_left
    intro t _
    by_cases h1 : t = j
    · simp [h1]
    · by_cases h2 : t < j
      · simp [h1, h2, Nat.lt_succ_of_lt h2]
      · have : ¬ t < j + 1 := by omega
        simp [h1, h2, this]

theorem apply_dw_eq (n : Nat) (alpha : F) (len : Int) (g : Nat → F) (w : List F)
    (h : n ≤ w.length) :
    apply_dw n alpha len ((List.range n).map g) w
      = some ((List.range n).map (fun j => g j / (len : F)),
              updated_weights n w alpha (fun j => g j / (len : F))) := by
  unfold apply_dw updated_weights
  apply foldlM_range_closed _
    (fun j => ((List.range n).map (fun t => if t < j then g t / (len : F) else g t),
               (List.range w.length).map
                 (fun t => if t < j then w.getD t 0 - alpha * (g t / (len : F)) else w.getD t 0)))
  · simp only [Nat.not_lt_zero, if_false]
    rw [← eq_map_range_getD w 0]
  · congr 1
    apply List.map_congr_left
    intro t ht
    simp [List.mem_range.mp ht]
  · intro j hj
    simp only [map_range_getElem? n _ j hj, map_range_getElem? w.length _ j (by omega),
      Option.bind_eq_bind, Option.some_bind, map_range_set, lt_irrefl, if_false, if_true,
      List.getElem?_map, List.getElem?_range hj, Option.map_some']
    simp only [Option.pure_def, Option.some.injEq, Prod.mk.injEq]
    constructor
    · apply List.map_congr_left
      intro t _
      by_cases h1 : t = j
      · simp [h1]
      · by_cases h2 : t < j
        · simp [h1, h2, Nat.lt_succ_of_lt h2]
        · have : ¬ t < j + 1 := by omega
          simp [h1, h2, this]
    · apply List.map_congr_left
      intro t _
      by_cases h1 : t = j
      · simp [h1]
      · by_cases h2 : t < j
        · simp [h1, h2, Nat.lt_succ_of_lt h2]
        · have : ¬ t < j + 1 := by omega
          simp [h1, h2, this]

end Eval

section Eval
variable {F : Type} [Field F]

theorem getAt_eq {α : Type} (v : List α) (dflt : α) (i : Int) (h0 : 0 ≤ i)
    (h1 : i.toNat < v.length) : getAt v i = some (v.getD i.toNat dflt) := by
  unfold getAt
  rw [if_pos h0, getElem?_eq_some_getD v dflt _ h1]

/-- The batch branch of `calculate_gradient_descent` in closed form. -/
theorem cgd_bgd_eq [HasExp F] (self : LogisticRegression2 F) (d : Database F) (start end_ : Int)
    (hopt : self.optim_ = Optimization.BGD) (hd : self.data_ = some d)
    (hfl : 0 ≤ self.feature_length_)
    (hw : self.feature_length_.toNat ≤ self.w_.length)
    (hm : 0 ≤ self.m_)
    (hs : self.m_.toNat ≤ d.samples.length)
    (hl : self.m_.toNat ≤ d.labels.length)
    (ho : self.m_.toNat ≤ self.o_.length)
    (hx : ∀ i, i < self.m_.toNat → self.feature_length_.toNat ≤ (d.x i).length) :
    self.calculate_gradient_descent start end_ = some { self with
      w_ := updated_weights self.feature_length_.toNat self.w_ self.alpha_
        (fun j => (∑ k in Finset.range self.m_.toNat,
          (d.x k).getD j 0 * spec_delta self.feature_length_.toNat self.w_ self.b_ d k)
            / (self.m_ : F))
      o_ := (List.range self.o_.length).map (fun t =>
        if t < self.m_.toNat then spec_output self.feature_length_.toNat self.w_ self.b_ d t
        else self.o_.getD t 0)
      b_ := self.b_ - self.alpha_ *
        ((∑ k in Finset.range self.m_.toNat,
          spec_delta self.feature_length_.toNat self.w_ self.b_ d k) / (self.m_ : F)) } := by
  unfold LogisticRegression2.calculate_gradient_descent
  simp only [hopt, not_lt.mpr hfl, not_lt.mpr hm, if_false]
  rw [foldlM_range_closed _
    (fun k => ((List.range self.feature_length_.toNat).map (fun j =>
        ∑ x in Finset.range k,
          (d.x x).getD j 0 * spec_delta self.feature_length_.toNat self.w_ self.b_ d x),
      ∑ x in Finset.range k, spec_delta self.feature_length_.toNat self.w_ self.b_ d x,
      (List.range self.o_.length).map (fun t =>
        if t < k then spec_output self.feature_length_.toNat self.w_ self.b_ d t
        else self.o_.getD t 0))) self.m_.toNat _ _ ?_ rfl ?_]
  · simp only [Option.bind_eq_bind, Option.some_bind]
    rw [apply_dw_eq _ _ _ _ _ hw]
    rfl
  · simp only [Finset.range_zero, Finset.sum_empty, Nat.not_lt_zero, if_false]
    rw [← eq_map_range_getD self.o_ 0]
    congr 1
    apply List.ext_getElem <;> simp
  · intro i hi
    simp only [hd, Option.bind_eq_bind, Option.some_bind]
    rw [getElem?_eq_some_getD d.samples [] i (by omega)]
    simp only [Option.some_bind]
    rw [calculate_z_eq self (d.samples.getD i []) hw (hx i hi)]
    simp only [Option.some_bind]
    rw [map_range_getElem? _ _ i (by omega), getElem?_eq_some_getD d.labels 0 i (by omega)]
    simp only [Option.some_bind, calculate_activation_function_eq,
      calculate_loss_function_derivative_eq]
    rw [accumulate_dw_eq _ _ (d.samples.getD i []) _ (hx i hi)]
    simp only [Option.some_bind, Option.pure_def, Option.some.injEq, Prod.mk.injEq,
      map_range_set, Finset.sum_range_succ]
    refine ⟨rfl, rfl, ?_⟩
    apply List.map_congr_left
    intro t _
    by_cases h1 : t = i
    · subst h1; simp [spec_output, Database.x]
    · by_cases h2 : t < i
      · simp [h1, h2, Nat.lt_succ_of_lt h2]
      · have : ¬ t < i + 1 := by omega
        simp [h1, h2, this]

/-- The stochastic/mini-batch branch of `calculate_gradient_descent` in closed form. -/
theorem cgd_sgd_eq [HasExp F] (self : LogisticRegression2 F) (d : Database F) (start end_ : Int)
    (hopt : self.optim_ ≠ Optimization.BGD) (hd : self.data_ = some d)
    (hfl : 0 ≤ self.feature_length_)
    (hw : self.feature_length_.toNat ≤ self.w_.length)
    (h0 : 0 ≤ start) (hse : start ≤ end_)
    (hr : end_.toNat ≤ self.random_shuffle_.length)
    (hidx : ∀ k, k < (end_ - start).toNat →
      0 ≤ self.random_shuffle_.getD (start + k).toNat 0 ∧
      self.range_index start k < d.samples.length ∧
      self.range_index start k < d.labels.length ∧
      self.feature_length_.toNat ≤ (d.x (self.range_index start k)).length) :
    self.calculate_gradient_descent start end_ = some { self with
      w_ := updated_weights self.feature_length_.toNat self.w_ self.alpha_
        (fun j => (∑ k in Finset.range (end_ - start).toNat,
          (d.x (self.range_index start k)).getD j 0 *
            spec_delta self.feature_length_.toNat self.w_ self.b_ d (self.range_index start k))
            / ((end_ - start : Int) : F))
      b_ := self.b_ - self.alpha_ *
        ((∑ k in Finset.range (end_ - start).toNat,
          spec_delta self.feature_length_.toNat self.w_ self.b_ d (self.range_index start k))
            / ((end_ - start : Int) : F)) } := by
  have hri : ∀ k, self.range_index start k
      = (self.random_shuffle_.getD (start + k).toNat 0).toNat := by
    intro k
    unfold LogisticRegression2.range_index
    cases ho : self.optim_ <;> simp_all
  have hlen : ¬ end_ - start < 0 := by omega
  unfold LogisticRegression2.calculate_gradient_descent
  have hfold : (List.range (end_ - start).toNat).foldlM
      (fun (st : List F × F) (x : Nat) =>
        (self.data_).bind fun d =>
        (getAt self.random_shuffle_ (start + x)).bind fun idx =>
        (getAt d.samples idx).bind fun sample =>
        (self.calculate_z sample).bind fun z =>
        (getAt d.labels idx).bind fun y =>
        (accumulate_dw self.feature_length_.toNat st.1 sample
          (self.calculate_loss_function_derivative (self.calculate_activation_function z) y)).bind
          fun dw1 => some (dw1, st.2 +
            self.calculate_loss_function_derivative (self.calculate_activation_function z) y))
      (List.replicate self.feature_length_.toNat 0, 0)
      = some ((List.range self.feature_length_.toNat).map (fun j =>
          ∑ k in Finset.range (end_ - start).toNat,
            (d.x (self.range_index start k)).getD j 0 *
              spec_delta self.feature_length_.toNat self.w_ self.b_ d (self.range_index start k)),
        ∑ k in Finset.range (end_ - start).toNat,
          spec_delta self.feature_length_.toNat self.w_ self.b_ d (self.range_index start k)) := by
    apply foldlM_range_closed _
      (fun n => ((List.range self.feature_length_.toNat).map (fun j =>
          ∑ k in Finset.range n,
            (d.x (self.range_index start k)).getD j 0 *
              spec_delta self.feature_length_.toNat self.w_ self.b_ d (self.range_index start k)),
        ∑ k in Finset.range n,
          spec_delta self.feature_length_.toNat self.w_ self.b_ d (self.range_index start k)))
    · simp only [Finset.range_zero, Finset.sum_empty]
      congr 1
      apply List.ext_getElem <;> simp
    · rfl
    · intro i hi
      obtain ⟨hi0, hi1, hi2, hi3⟩ := hidx i hi
      rw [hri] at hi1 hi2 hi3
      simp only [hd, Option.some_bind]
      rw [getAt_eq self.random_shuffle_ 0 (start + i) (by omega) (by omega)]
      simp only [Option.some_bind]
      rw [getAt_eq d.samples [] _ hi0 hi1, getAt_eq d.labels 0 _ hi0 hi2]
      simp only [Option.some_bind]
      rw [calculate_z_eq self (d.samples.getD _ []) hw hi3]
      simp only [Option.some_bind, calculate_activation_function_eq,
        calculate_loss_function_derivative_eq]
      rw [accumulate_dw_eq _ _ (d.samples.getD _ []) _ hi3]
      simp only [Option.some_bind, Option.some.injEq, Prod.mk.injEq, Finset.sum_range_succ, hri]
      exact ⟨rfl, rfl⟩
  cases ho : self.optim_ with
  | BGD => exact absurd ho hopt
  | SGD =>
    simp only [not_lt.mpr hfl, hlen, if_false, Option.bind_eq_bind, Option.pure_def]
    simp only [Option.bind_eq_bind, Option.pure_def] at hfold
    rw [hfold]
    simp only [Option.some_bind]
    rw [apply_dw_eq _ _ _ _ _ hw]
    rfl
  | MBGD =>
    simp only [not_lt.mpr hfl, hlen, if_false, Option.bind_eq_bind, Option.pure_def]
    simp only [Option.bind_eq_bind, Option.pure_def] at hfold
    rw [hfold]
    simp only [Option.some_bind]
    rw [apply_dw_eq _ _ _ _ _ hw]
    rfl

end Eval

section Eval
variable {F : Type} [Field F]

theorem cast_toNat (z : Int) (h : 0 ≤ z) : ((z.toNat : Nat) : F) = ((z : Int) : F) := by
  rw [← Int.cast_natCast, Int.toNat_of_nonneg h]

/-- The loop that refreshes the activation cache, in closed form. -/
theorem refresh_outputs_eq [HasExp F] (self : LogisticRegression2 F) (d : Database F)
    (hd : self.data_ = some d)
    (hw : self.feature_length_.toNat ≤ self.w_.length)
    (hs : self.m_.toNat ≤ d.samples.length)
    (ho : self.m_.toNat ≤ self.o_.length)
    (hx : ∀ i, i < self.m_.toNat → self.feature_length_.toNat ≤ (d.x i).length) :
    refresh_outputs self = some { self with
      o_ := (List.range self.o_.length).map (fun t =>
        if t < self.m_.toNat then spec_output self.feature_length_.toNat self.w_ self.b_ d t
        else self.o_.getD t 0) } := by
  unfold refresh_outputs
  rw [foldlM_range_closed _
    (fun k => (List.range self.o_.length).map (fun t =>
        if t < k then spec_output self.feature_length_.toNat self.w_ self.b_ d t
        else self.o_.getD t 0)) self.m_.toNat _ _ ?_ rfl ?_]
  · rfl
  · simp only [Nat.not_lt_zero, if_false]
    rw [← eq_map_range_getD self.o_ 0]
  · intro i hi
    simp only [hd, Option.bind_eq_bind, Option.some_bind]
    rw [getElem?_eq_some_getD d.samples [] i (by omega)]
    simp only [Option.some_bind]
    rw [calculate_z_eq self (d.samples.getD i []) hw (hx i hi)]
    simp only [Option.some_bind]
    rw [map_range_getElem? _ _ i (by omega)]
    simp only [Option.some_bind, calculate_activation_function_eq, Option.pure_def,
      Option.some.injEq, map_range_set]
    apply List.map_congr_left
    intro t _
    by_cases h1 : t = i
    · subst h1; simp [spec_output, Database.x]
    · by_cases h2 : t < i
      · simp [h1, h2, Nat.lt_succ_of_lt h2]
      · have : ¬ t < i + 1 := by omega
        simp [h1, h2, this]

/-- The cost loop in closed form. -/
theorem calculate_cost_function_eq (self : LogisticRegression2 F) (d : Database F)
    (hd : self.data_ = some d) (hm : 0 ≤ self.m_)
    (hl : self.m_.toNat ≤ d.labels.length)
    (ho : self.m_.toNat ≤ self.o_.length) :
    self.calculate_cost_function
      = some (spec_cost self.m_.toNat d (fun i => self.o_.getD i 0)) := by
  unfold LogisticRegression2.calculate_cost_function
  rw [foldlM_range_closed _
    (fun k => ∑ i in Finset.range k, 1 / 2 * (d.y i - self.o_.getD i 0) ^ 2)
    self.m_.toNat _ _ ?_ rfl ?_]
  · simp only [Option.bind_eq_bind, Option.some_bind, Option.pure_def, spec_cost,
      cast_toNat _ hm]
    rw [one_div_mul_eq_div]
  · simp
  · intro i hi
    simp only [hd, Option.bind_eq_bind, Option.some_bind]
    rw [getElem?_eq_some_getD d.labels 0 i (by omega),
      getElem?_eq_some_getD self.o_ 0 i (by omega)]
    simp [Finset.sum_range_succ, Database.y]

end Eval

/-! ## Inference (C4, C19) -/

/-- C4: `predict` fails with `InvalidInput` when the declared length `n`
differs from the feature length of the model, and otherwise (the vector `x`
holding `n` values and the weight vector at least `n`) returns
`sigmoid(sum_{t<n} x[t]*w[t] + b)`.  The function is `const` and hands back a
value only: weights, bias and feature length are those of before the call. -/
theorem predict_spec {F : Type} [Field F] [HasExp F] (self : LogisticRegression2 F)
    (x : List F) (n : Int) :
    (n ≠ self.feature_length_ → self.predict x n = some Checked.invalidInput) ∧
    (n = self.feature_length_ → n.toNat ≤ x.length → n.toNat ≤ self.w_.length →
      self.predict x n = some (Checked.value
        (sigmoid (∑ t in Finset.range n.toNat, x.getD t 0 * self.w_.getD t 0 + self.b_)))) := by
  constructor
  · intro hne
    unfold LogisticRegression2.predict CHECK
    rw [if_neg hne]
  · intro heq hx hw
    subst heq
    unfold LogisticRegression2.predict CHECK
    rw [if_pos rfl, foldlM_range_closed _
      (fun i => ∑ t in Finset.range i, x.getD t 0 * self.w_.getD t 0)
      self.feature_length_.toNat 0 _ (by simp) rfl]
    · simp [calculate_activation_function_eq]
    · intro i hi
      rw [getElem?_eq_some_getD self.w_ 0 i (by omega), getElem?_eq_some_getD x 0 i (by omega)]
      simp [Finset.sum_range_succ]

/-- Witness of `predict_spec`: the model with weights `[1, 2]` and bias `3`
rejects a declared length of 3 and maps `[3, 4]` to `sigmoid(3*1 + 4*2 + 3)`. -/
theorem predict_spec_witness :
    realModel.predict [3, 4] 3 = some Checked.invalidInput
      ∧ realModel.predict [3, 4] 2 = some (Checked.value (sigmoid (14 : ℝ))) := by
  refine ⟨(predict_spec realModel [3, 4] 3).1 (by decide), ?_⟩
  rw [(predict_spec realModel [3, 4] 2).2 rfl (by decide) (by decide)]
  simp [realModel, Finset.sum_range_succ]
  norm_num

/-- C19: `predict(x, feature_length)` is the activation of `calculate_z(x)`, the
forward pass that training uses to fill the activation cache: the two calls
read the same positions of `x` and of the weight vector, so either both have
no defined result or both yield the same value; for a vector `x` and a weight
vector of at least `feature_length` entries both yield a value. -/
theorem predict_eq_forward {F : Type} [Field F] [HasExp F] (self : LogisticRegression2 F)
    (x : List F) :
    self.predict x self.feature_length_
        = (self.calculate_z x).map
            (fun z => Checked.value (self.calculate_activation_function z))
      ∧ (self.feature_length_.toNat ≤ x.length →
          self.feature_length_.toNat ≤ self.w_.length →
          ∃ z, self.calculate_z x = some z ∧
            self.predict x self.feature_length_
              = some (Checked.value (self.calculate_activation_function z))) := by
  have hstep : (fun (value : F) (t : Nat) =>
        (x[t]?).bind fun a => (self.w_[t]?).bind fun w => some (value + a * w))
      = (fun (z : F) (i : Nat) =>
        (self.w_[i]?).bind fun wi => (x[i]?).bind fun fi => some (z + wi * fi)) := by
    funext v t
    cases x[t]? <;> cases self.w_[t]? <;> simp [mul_comm]
  have h1 : self.predict x self.feature_length_
      = (self.calculate_z x).map
          (fun z => Checked.value (self.calculate_activation_function z)) := by
    unfold LogisticRegression2.predict LogisticRegression2.calculate_z CHECK
    simp only [if_true, Option.bind_eq_bind, Option.pure_def, hstep]
    generalize (List.range self.feature_length_.toNat).foldlM
      (fun (z : F) (i : Nat) =>
        (self.w_[i]?).bind fun wi => (x[i]?).bind fun fi => some (z + wi * fi)) (0 : F) = r
    cases r <;> rfl
  refine ⟨h1, fun hx hw => ?_⟩
  refine ⟨_, calculate_z_eq self x hw hx, ?_⟩
  rw [h1, calculate_z_eq self x hw hx]
  rfl

/-- Witness of `predict_eq_forward`: on the model with weights `[1, 2]` and
bias `3` both calls yield a value for the vector `[3, 4]`. -/
theorem predict_eq_forward_witness :
    ∃ z, realModel.calculate_z [3, 4] = some z ∧
      realModel.predict [3, 4] realModel.feature_length_
        = some (Checked.value (realModel.calculate_activation_function z)) :=
  (predict_eq_forward realModel [3, 4]).2 (by decide) (by decide)

/-! ## The state after a successful initialization (C11) -/

/-- C11 (as stated, refuted): `init` succeeds on a dataset of 2^32 + 2 samples,
and afterwards the stored sample count is 2 and the activation cache has
length 2, not the number of samples of the dataset: the count does not fit the
`int` member `m_`. -/
theorem init_accepts_wrapped_sample_count :
    (blank.init ⟨List.replicate 4294967298 [], List.replicate 4294967298 0⟩ 0 1 1).1 = 0
      ∧ (blank.init ⟨List.replicate 4294967298 [], List.replicate 4294967298 0⟩ 0 1 1).2.m_ = 2
      ∧ (blank.init ⟨List.replicate 4294967298 [], List.replicate 4294967298 0⟩ 0 1 1).2.o_.length
          = 2
      ∧ (List.replicate 4294967298 ([] : List ℚ)).length = 4294967298 := by
  have hw : toInt32 ((4294967298 : Nat) : Int) = 2 := by decide
  have h1 : ¬ (1 : ℚ) ≤ 0 := by norm_num
  have h2 : ¬ (2 : Int) < 2 := by decide
  have h3 : ¬ (1 : Int) < 1 := by decide
  have h : blank.init ⟨List.replicate 4294967298 [], List.replicate 4294967298 0⟩ 0 1 1
      = (0, { blank with
                m_ := 2, alpha_ := 1, epochs_ := 1, feature_length_ := 0
                data_ := some ⟨List.replicate 4294967298 [], List.replicate 4294967298 0⟩
                o_ := resize blank.o_ (2 : Int).toNat 0 }) := by
    simp only [LogisticRegression2.init, CHECK, List.length_replicate, if_true, hw, h1, h2, h3,
      if_false]
  rw [h]
  refine ⟨rfl, rfl, ?_, ?_⟩
  · rw [resize_length]; rfl
  · simp only [List.length_replicate]

/-- C11 (amended): when `init` succeeds on a dataset of `m` samples, `m` below
2^31, afterwards the activation cache has length `m`, the stored feature
length, learning rate and epoch count equal the arguments, the stored sample
count is `m`, the dataset is stored, and the weight vector and the bias are
what they were before the call. -/
theorem init_success_frame {F : Type} [Zero F] [LE F] [DecidableRel (fun a b : F => a ≤ b)]
    (self : LogisticRegression2 F) (data : Database F) (feature_length : Int)
    (learning_rate : F) (epochs : Int) (hsize : data.samples.length < 2147483648)
    (hok : (self.init data feature_length learning_rate epochs).1 = 0) :
    (self.init data feature_length learning_rate epochs).2.o_.length = data.samples.length
      ∧ (self.init data feature_length learning_rate epochs).2.feature_length_ = feature_length
      ∧ (self.init data feature_length learning_rate epochs).2.alpha_ = learning_rate
      ∧ (self.init data feature_length learning_rate epochs).2.epochs_ = epochs
      ∧ (self.init data feature_length learning_rate epochs).2.m_ = data.samples.length
      ∧ (self.init data feature_length learning_rate epochs).2.data_ = some data
      ∧ (self.init data feature_length learning_rate epochs).2.w_ = self.w_
      ∧ (self.init data feature_length learning_rate epochs).2.b_ = self.b_ := by
  have hm : toInt32 (data.samples.length : Int) = data.samples.length := toInt32_of_lt hsize
  unfold LogisticRegression2.init CHECK at hok ⊢
  dsimp only at hok ⊢
  split_ifs at hok ⊢
  · exact absurd hok (show ¬ ((-1 : Int) = 0) by decide)
  · exact absurd hok (show ¬ ((-1 : Int) = 0) by decide)
  · exact absurd hok (show ¬ ((-1 : Int) = 0) by decide)
  · refine ⟨?_, rfl, rfl, rfl, hm, rfl, rfl, rfl⟩
    rw [resize_length, hm, Int.toNat_natCast]
  · exact absurd hok (show ¬ ((-1 : Int) = 0) by decide)

/-- Witness of `init_success_frame`: `init` on a fresh object with two samples. -/
theorem init_success_frame_witness :
    (blank.init ⟨[[1, 2], [3, 4]], [0, 1]⟩ 2 (1 / 10) 5).2.o_.length = 2
      ∧ (blank.init ⟨[[1, 2], [3, 4]], [0, 1]⟩ 2 (1 / 10) 5).2.feature_length_ = 2
      ∧ (blank.init ⟨[[1, 2], [3, 4]], [0, 1]⟩ 2 (1 / 10) 5).2.alpha_ = 1 / 10
      ∧ (blank.init ⟨[[1, 2], [3, 4]], [0, 1]⟩ 2 (1 / 10) 5).2.epochs_ = 5
      ∧ (blank.init ⟨[[1, 2], [3, 4]], [0, 1]⟩ 2 (1 / 10) 5).2.m_ = 2
      ∧ (blank.init ⟨[[1, 2], [3, 4]], [0, 1]⟩ 2 (1 / 10) 5).2.data_
          = some ⟨[[1, 2], [3, 4]], [0, 1]⟩
      ∧ (blank.init ⟨[[1, 2], [3, 4]], [0, 1]⟩ 2 (1 / 10) 5).2.w_ = []
      ∧ (blank.init ⟨[[1, 2], [3, 4]], [0, 1]⟩ 2 (1 / 10) 5).2.b_ = 0 :=
  init_success_frame blank ⟨[[1, 2], [3, 4]], [0, 1]⟩ 2 (1 / 10) 5 (by decide)
    (by simp [LogisticRegression2.init, CHECK, toInt32]; norm_num)

/-! ## The cost function (C12) -/

theorem UnderflowFloat.zero_val : (0 : UnderflowFloat).val = 0 := rfl

theorem UnderflowFloat.one_val : (1 : UnderflowFloat).val = 1 := rfl

theorem UnderflowFloat.add_val (a b : UnderflowFloat) :
    (a + b).val = narrow (a.val + b.val) := rfl

theorem UnderflowFloat.sub_val (a b : UnderflowFloat) : (a - b).val = a.val - b.val := rfl

theorem UnderflowFloat.mul_val (a b : UnderflowFloat) : (a * b).val = a.val * b.val := rfl

theorem UnderflowFloat.div_val (a b : UnderflowFloat) : (a / b).val = a.val / b.val := rfl

theorem UnderflowFloat.pow_val (a : UnderflowFloat) (n : Nat) : (a ^ n).val = a.val ^ n := rfl

theorem UnderflowFloat.intCast_val (n : Int) : ((n : UnderflowFloat)).val = (n : ℚ) := rfl

theorem UnderflowFloat.ext_val {a b : UnderflowFloat} (h : a.val = b.val) : a = b := by
  cases a; cases b; simp_all

/-- C12 (as stated, refuted): one sample with label `0` and cached output
`2^-100`.  The term `1/2 * (0 - 2^-100)^2 = 2^-201` is computed exactly, and
`J += 2^-201` stores `0` in the `float` accumulator `J`, the sum being below
the range of `float`: the cost returned is exactly `0` although the cached
output differs from the label. -/
theorem cost_zero_with_output_off_label :
    underflowModel.calculate_cost_function = some 0
      ∧ 1 ≤ underflowModel.m_
      ∧ underflowModel.o_.getD 0 0 ≠ Database.y ⟨[[]], [0]⟩ 0 := by
  refine ⟨?_, by decide, ?_⟩
  · have hr : List.range (1 : Int).toNat = [0] := rfl
    simp only [LogisticRegression2.calculate_cost_function, underflowModel, hr, List.foldlM_cons,
      List.foldlM_nil, Option.bind_eq_bind, Option.some_bind, List.getElem?_cons_zero,
      Option.pure_def, Option.some.injEq]
    apply UnderflowFloat.ext_val
    simp only [UnderflowFloat.div_val, UnderflowFloat.add_val, UnderflowFloat.mul_val,
      UnderflowFloat.pow_val, UnderflowFloat.sub_val, UnderflowFloat.intCast_val,
      UnderflowFloat.zero_val, UnderflowFloat.one_val, narrow]
    norm_num [abs_of_nonneg]
  · intro h
    have := congrArg UnderflowFloat.val h
    simp [Database.y, underflowModel, UnderflowFloat.zero_val] at this

/-- C12 (amended): for a state with `m >= 1` samples (labels and activation
cache holding at least `m` values), `calculate_cost_function` returns, in exact
arithmetic, `(1/m) * sum_{i<m} 1/2*(y_i - o_i)^2`, `o_i` being the cached output
of sample `i`; the result is non-negative, and it is 0 if every cached output
equals its label. -/
theorem calculate_cost_function_spec {F : Type} [LinearOrderedField F]
    (self : LogisticRegression2 F) (d : Database F)
    (hd : self.data_ = some d) (hm : 1 ≤ self.m_)
    (hl : self.m_.toNat ≤ d.labels.length) (ho : self.m_.toNat ≤ self.o_.length) :
    ∃ J, self.calculate_cost_function = some J
      ∧ J = 1 / (self.m_.toNat : F)
              * ∑ i in Finset.range self.m_.toNat, 1 / 2 * (d.y i - self.o_.getD i 0) ^ 2
      ∧ 0 ≤ J
      ∧ ((∀ i, i < self.m_.toNat → self.o_.getD i 0 = d.y i) → J = 0) := by
  have hpos : (0 : F) < (self.m_.toNat : F) := by
    have : 0 < self.m_.toNat := by omega
    exact_mod_cast this
  have hterm : ∀ i ∈ Finset.range self.m_.toNat,
      (0 : F) ≤ 1 / 2 * (d.y i - self.o_.getD i 0) ^ 2 :=
    fun i _ => mul_nonneg (by norm_num) (sq_nonneg _)
  refine ⟨_, calculate_cost_function_eq self d hd (by omega) hl ho, rfl, ?_, ?_⟩
  · exact mul_nonneg (le_of_lt (one_div_pos.mpr hpos)) (Finset.sum_nonneg hterm)
  · intro h
    unfold spec_cost
    rw [mul_eq_zero]
    right
    apply Finset.sum_eq_zero
    intro i hi
    simp only [h i (Finset.mem_range.mp hi)]
    simp

/-- Witness of `calculate_cost_function_spec`: two samples with labels `0, 1`
and cached outputs `1/2, 1`. -/
theorem calculate_cost_function_spec_witness :
    ∃ J, cachedModel.calculate_cost_function = some J
      ∧ J = 1 / (cachedModel.m_.toNat : ℚ)
              * ∑ i in Finset.range cachedModel.m_.toNat,
                  1 / 2 * (Database.y ⟨[[1, 2], [3, 4]], [0, 1]⟩ i - cachedModel.o_.getD i 0) ^ 2
      ∧ 0 ≤ J
      ∧ ((∀ i, i < cachedModel.m_.toNat →
            cachedModel.o_.getD i 0 = Database.y ⟨[[1, 2], [3, 4]], [0, 1]⟩ i) → J = 0) :=
  calculate_cost_function_spec cachedModel ⟨[[1, 2], [3, 4]], [0, 1]⟩ rfl (by decide)
    (by decide) (by decide)

/-! ## The gradient step (C6, C18) -/

theorem updated_weights_length {F : Type} [Field F] (n : Nat) (w : List F) (alpha : F)
    (dw : Nat → F) : (updated_weights n w alpha dw).length = w.length := by
  simp [updated_weights]

theorem updated_weights_getD {F : Type} [Field F] (n : Nat) (w : List F) (alpha : F)
    (dw : Nat → F) (j : Nat) (hj : j < n) (hn : n ≤ w.length) :
    (updated_weights n w alpha dw).getD j 0 = w.getD j 0 - alpha * dw j := by
  have hjw : j < w.length := by omega
  simp [updated_weights, List.getD_eq_getElem?_getD, List.getElem?_range hjw, hj]

theorem range_index_bgd {F : Type} (self : LogisticRegression2 F) (start : Int) (k : Nat)
    (hopt : self.optim_ = Optimization.BGD) : self.range_index start k = k := by
  simp [LogisticRegression2.range_index, hopt]

theorem range_len_bgd {F : Type} (self : LogisticRegression2 F) (start end_ : Int)
    (hopt : self.optim_ = Optimization.BGD) : self.range_len start end_ = self.m_ := by
  simp [LogisticRegression2.range_len, hopt]

theorem range_len_sgd {F : Type} (self : LogisticRegression2 F) (start end_ : Int)
    (hopt : self.optim_ ≠ Optimization.BGD) : self.range_len start end_ = end_ - start := by
  unfold LogisticRegression2.range_len
  cases h : self.optim_ <;> simp_all

/-- One call of `calculate_gradient_descent` on a non-empty range whose
positions, samples and labels exist, both branches at once: the sums the loop
accumulates are divided by the length of the range and subtracted, scaled by
the learning rate. -/
theorem calculate_gradient_descent_formula {F : Type} [Field F] [HasExp F]
    (self : LogisticRegression2 F) (d : Database F) (start end_ : Int)
    (hd : self.data_ = some d) (hfl : 0 ≤ self.feature_length_)
    (hw : self.feature_length_.toNat ≤ self.w_.length)
    (hlen : 1 ≤ self.range_len start end_)
    (hB : self.optim_ = Optimization.BGD → self.m_.toNat ≤ self.o_.length)
    (hS : self.optim_ ≠ Optimization.BGD →
      0 ≤ start ∧ end_.toNat ≤ self.random_shuffle_.length ∧
      ∀ k, k < (end_ - start).toNat → 0 ≤ self.random_shuffle_.getD (start + k).toNat 0)
    (hidx : ∀ k, k < (self.range_len start end_).toNat →
      self.range_index start k < d.samples.length ∧
      self.range_index start k < d.labels.length ∧
      self.feature_length_.toNat ≤ (d.x (self.range_index start k)).length) :
    ∃ s, self.calculate_gradient_descent start end_ = some s
      ∧ s.b_ = self.b_ - self.alpha_ *
          ((∑ k in Finset.range (self.range_len start end_).toNat,
            spec_delta self.feature_length_.toNat self.w_ self.b_ d (self.range_index start k))
              / ((self.range_len start end_ : Int) : F))
      ∧ s.w_ = updated_weights self.feature_length_.toNat self.w_ self.alpha_
          (fun j => (∑ k in Finset.range (self.range_len start end_).toNat,
            (d.x (self.range_index start k)).getD j 0 *
              spec_delta self.feature_length_.toNat self.w_ self.b_ d (self.range_index start k))
              / ((self.range_len start end_ : Int) : F)) := by
  by_cases hopt : self.optim_ = Optimization.BGD
  · have hl := range_len_bgd self start end_ hopt
    rw [hl] at hlen hidx ⊢
    have hri : self.range_index start = fun k => k := by
      funext k; exact range_index_bgd self start k hopt
    rw [hri] at hidx ⊢
    have hs : self.m_.toNat ≤ d.samples.length := by
      by_contra hc
      have := (hidx d.samples.length (by omega)).1
      simp only at this
      omega
    have hla : self.m_.toNat ≤ d.labels.length := by
      by_contra hc
      have := (hidx d.labels.length (by omega)).2.1
      simp only at this
      omega
    exact ⟨_, cgd_bgd_eq self d start end_ hopt hd hfl hw (by omega) hs hla (hB hopt)
      (fun i hi => (hidx i hi).2.2), rfl, rfl⟩
  · have hl := range_len_sgd self start end_ hopt
    rw [hl] at hlen hidx ⊢
    obtain ⟨h0, hr, hnn⟩ := hS hopt
    exact ⟨_, cgd_sgd_eq self d start end_ hopt hd hfl hw h0 (by omega) hr
      (fun k hk => ⟨hnn k hk, hidx k hk⟩), rfl, rfl⟩

/-- C6: on a non-empty range `[start, end)` (in batch mode: all `m` samples) whose
positions, samples and labels exist, one call of `calculate_gradient_descent`
returns the state in which `b` is `b - alpha*db` and each `w[j]`, `j` below the
feature length, is `w[j] - alpha*dw[j]`, with
`dw[j] = (1/len) * sum over the range of x_i[j]*(sigmoid(w.x_i + b) - y_i)` and
`db = (1/len) * sum over the range of (sigmoid(w.x_i + b) - y_i)`, `len` the
length of the range and `w`, `b` the weights and bias of before the call. -/
theorem calculate_gradient_descent_spec {F : Type} [Field F] [HasExp F]
    (self : LogisticRegression2 F) (d : Database F) (start end_ : Int)
    (hd : self.data_ = some d) (hfl : 0 ≤ self.feature_length_)
    (hw : self.feature_length_.toNat ≤ self.w_.length)
    (hlen : 1 ≤ self.range_len start end_)
    (hB : self.optim_ = Optimization.BGD → self.m_.toNat ≤ self.o_.length)
    (hS : self.optim_ ≠ Optimization.BGD →
      0 ≤ start ∧ end_.toNat ≤ self.random_shuffle_.length ∧
      ∀ k, k < (end_ - start).toNat → 0 ≤ self.random_shuffle_.getD (start + k).toNat 0)
    (hidx : ∀ k, k < (self.range_len start end_).toNat →
      self.range_index start k < d.samples.length ∧
      self.range_index start k < d.labels.length ∧
      self.feature_length_.toNat ≤ (d.x (self.range_index start k)).length) :
    ∃ s, self.calculate_gradient_descent start end_ = some s
      ∧ s.b_ = self.b_ - self.alpha_ *
          spec_db self.feature_length_.toNat self.w_ self.b_ d (self.range_index start)
            (self.range_len start end_).toNat
      ∧ s.w_.length = self.w_.length
      ∧ ∀ j, j < self.feature_length_.toNat →
          s.w_.getD j 0 = self.w_.getD j 0 - self.alpha_ *
            spec_dw self.feature_length_.toNat self.w_ self.b_ d (self.range_index start)
              (self.range_len start end_).toNat j := by
  obtain ⟨s, hs, hb, hwe⟩ :=
    calculate_gradient_descent_formula self d start end_ hd hfl hw hlen hB hS hidx
  have hcast : (((self.range_len start end_).toNat : Nat) : F)
      = ((self.range_len start end_ : Int) : F) := cast_toNat _ (by omega)
  refine ⟨s, hs, ?_, ?_, ?_⟩
  · rw [hb, spec_db, one_div_mul_eq_div, hcast]
  · rw [hwe, updated_weights_length]
  · intro j hj
    rw [hwe, updated_weights_getD _ _ _ _ j hj hw, spec_dw, one_div_mul_eq_div, hcast]

/-- Witness of `calculate_gradient_descent_spec`: one step of each branch on two
samples `[0]` with label `1`, from weight `0` and bias `0`. -/
theorem calculate_gradient_descent_spec_witness :
    (∃ s, bgdState.calculate_gradient_descent 0 0 = some s
      ∧ s.b_ = bgdState.b_ - bgdState.alpha_ *
          spec_db bgdState.feature_length_.toNat bgdState.w_ bgdState.b_ ⟨[[0], [0]], [1, 1]⟩
            (bgdState.range_index 0) (bgdState.range_len 0 0).toNat
      ∧ s.w_.length = bgdState.w_.length
      ∧ ∀ j, j < bgdState.feature_length_.toNat →
          s.w_.getD j 0 = bgdState.w_.getD j 0 - bgdState.alpha_ *
            spec_dw bgdState.feature_length_.toNat bgdState.w_ bgdState.b_ ⟨[[0], [0]], [1, 1]⟩
              (bgdState.range_index 0) (bgdState.range_len 0 0).toNat j)
    ∧ (∃ s, sgdState.calculate_gradient_descent 1 2 = some s
      ∧ s.b_ = sgdState.b_ - sgdState.alpha_ *
          spec_db sgdState.feature_length_.toNat sgdState.w_ sgdState.b_ ⟨[[0], [0]], [1, 1]⟩
            (sgdState.range_index 1) (sgdState.range_len 1 2).toNat
      ∧ s.w_.length = sgdState.w_.length
      ∧ ∀ j, j < sgdState.feature_length_.toNat →
          s.w_.getD j 0 = sgdState.w_.getD j 0 - sgdState.alpha_ *
            spec_dw sgdState.feature_length_.toNat sgdState.w_ sgdState.b_ ⟨[[0], [0]], [1, 1]⟩
              (sgdState.range_index 1) (sgdState.range_len 1 2).toNat j) :=
  ⟨calculate_gradient_descent_spec bgdState ⟨[[0], [0]], [1, 1]⟩ 0 0 rfl (by decide) (by decide)
      (by decide) (fun _ => by decide) (fun h => absurd rfl h)
      (by
        intro k hk
        have hk2 : k < 2 := hk
        interval_cases k <;> decide),
    calculate_gradient_descent_spec sgdState ⟨[[0], [0]], [1, 1]⟩ 1 2 rfl (by decide) (by decide)
      (by decide) (fun h => absurd h (by decide))
      (fun _ => ⟨by decide, by decide, by
        intro k hk
        have hk2 : k < 1 := hk
        interval_cases k
        decide⟩)
      (by
        intro k hk
        have hk2 : k < 1 := hk
        interval_cases k
        decide)⟩

/-- C18: with the identity as shuffle index and the range `[0, m)`, the
stochastic/mini-batch branch of `calculate_gradient_descent` returns the state
that the batch branch returns from the same weights, bias and dataset, except
that the batch branch has also overwritten the activation cache: the updated
weights and bias are the same. -/
theorem sgd_identity_eq_bgd {F : Type} [Field F] [HasExp F]
    (self : LogisticRegression2 F) (d : Database F) (start end_ : Int)
    (hopt : self.optim_ ≠ Optimization.BGD)
    (hid : ∀ k, k < self.m_.toNat → self.random_shuffle_.getD k 0 = (k : Int))
    (hrs : self.m_.toNat ≤ self.random_shuffle_.length)
    (hd : self.data_ = some d) (hfl : 0 ≤ self.feature_length_)
    (hw : self.feature_length_.toNat ≤ self.w_.length) (hm : 0 ≤ self.m_)
    (hs : self.m_.toNat ≤ d.samples.length) (hl : self.m_.toNat ≤ d.labels.length)
    (ho : self.m_.toNat ≤ self.o_.length)
    (hx : ∀ i, i < self.m_.toNat → self.feature_length_.toNat ≤ (d.x i).length) :
    ∃ sS sB, self.calculate_gradient_descent 0 self.m_ = some sS
      ∧ ({ self with optim_ := Optimization.BGD }).calculate_gradient_descent start end_ = some sB
      ∧ sS.w_ = sB.w_ ∧ sS.b_ = sB.b_
      ∧ sS = { sB with o_ := self.o_, optim_ := self.optim_ } := by
  have hri : ∀ k, k < self.m_.toNat → self.range_index 0 k = k := by
    intro k hk
    unfold LogisticRegression2.range_index
    have : (self.random_shuffle_.getD ((0 : Int) + (k : Int)).toNat 0).toNat = k := by
      rw [zero_add, Int.toNat_natCast, hid k hk, Int.toNat_natCast]
    cases h : self.optim_ <;> simp_all
  have hsub : (self.m_ - 0).toNat = self.m_.toNat := by rw [sub_zero]
  have hS := cgd_sgd_eq self d 0 self.m_ hopt hd hfl hw (le_refl 0) hm hrs (by
    intro k hk
    rw [hsub] at hk
    rw [hri k hk]
    refine ⟨?_, by omega, by omega, hx k hk⟩
    rw [zero_add, Int.toNat_natCast, hid k hk]
    omega)
  have hB := cgd_bgd_eq ({ self with optim_ := Optimization.BGD }) d start end_ rfl hd hfl hw hm
    hs hl ho hx
  have hsumw : ∀ j, (∑ k in Finset.range self.m_.toNat,
        (d.x (self.range_index 0 k)).getD j 0 *
          spec_delta self.feature_length_.toNat self.w_ self.b_ d (self.range_index 0 k))
      = ∑ k in Finset.range self.m_.toNat,
        (d.x k).getD j 0 * spec_delta self.feature_length_.toNat self.w_ self.b_ d k := by
    intro j
    exact Finset.sum_congr rfl (fun k hk => by rw [hri k (Finset.mem_range.mp hk)])
  have hsumb : (∑ k in Finset.range self.m_.toNat,
        spec_delta self.feature_length_.toNat self.w_ self.b_ d (self.range_index 0 k))
      = ∑ k in Finset.range self.m_.toNat,
        spec_delta self.feature_length_.toNat self.w_ self.b_ d k := by
    exact Finset.sum_congr rfl (fun k hk => by rw [hri k (Finset.mem_range.mp hk)])
  refine ⟨_, _, hS, hB, ?_, ?_, ?_⟩
  · simp only [sub_zero, hsumw]
  · simp only [sub_zero, hsumb]
  · simp only [sub_zero, hsumw, hsumb]

/-- Witness of `sgd_identity_eq_bgd`: two samples and the shuffle index `[0, 1]`. -/
theorem sgd_identity_eq_bgd_witness :
    ∃ sS sB, sgdIdentityState.calculate_gradient_descent 0 sgdIdentityState.m_ = some sS
      ∧ ({ sgdIdentityState with optim_ := Optimization.BGD }).calculate_gradient_descent 0 0
          = some sB
      ∧ sS.w_ = sB.w_ ∧ sS.b_ = sB.b_
      ∧ sS = { sB with o_ := sgdIdentityState.o_, optim_ := sgdIdentityState.optim_ } :=
  sgd_identity_eq_bgd sgdIdentityState ⟨[[0], [0]], [1, 1]⟩ 0 0 (by decide)
    (by
      intro k hk
      have hk2 : k < 2 := hk
      interval_cases k <;> rfl)
    (by decide) rfl (by decide) (by decide) (by decide) (by decide) (by decide) (by decide)
    (by
      intro k hk
      have hk2 : k < 2 := hk
      interval_cases k <;> decide)

/-! ## The batches of one epoch (C9) -/

theorem batch_count_eq (m bs : Int) (hm : 0 ≤ m) (hbs : 1 ≤ bs) :
    batch_count m bs = (m + bs - 1) / bs := by
  unfold batch_count
  exact Int.tdiv_eq_ediv (by omega) (by omega)

/-- Batch `i` exists exactly when its start lies below the sample count. -/
theorem lt_batch_count_iff (m bs : Int) (hm : 0 ≤ m) (hbs : 1 ≤ bs) (i : Int) :
    i < batch_count m bs ↔ batch_start i bs < m := by
  rw [batch_count_eq m bs hm hbs, batch_start, ← Int.add_one_le_iff,
    Int.le_ediv_iff_mul_le (by omega : (0 : Int) < bs), add_mul, one_mul]
  generalize i * bs = s
  omega

/-- The range of an existing batch: it starts at or after 0, is non-empty, ends
at or before `m` and holds at most `batch_size` positions. -/
theorem batch_bounds (m bs : Int) (hm : 0 ≤ m) (hbs : 1 ≤ bs) (i : Int) (hi0 : 0 ≤ i)
    (hi : i < batch_count m bs) :
    0 ≤ batch_start i bs ∧ batch_start i bs < batch_end i bs m ∧ batch_end i bs m ≤ m
      ∧ batch_end i bs m - batch_start i bs ≤ bs := by
  have h1 := (lt_batch_count_iff m bs hm hbs i).mp hi
  have h0 : 0 ≤ batch_start i bs := by
    unfold batch_start
    exact mul_nonneg hi0 (by omega)
  unfold batch_end
  split_ifs <;> omega

theorem SameConfig.refl {F : Type} (a : LogisticRegression2 F) : SameConfig a a :=
  ⟨rfl, rfl, rfl, rfl, rfl, rfl, rfl, rfl, rfl, rfl, rfl, rfl, List.Perm.refl _⟩

theorem SameConfig.trans {F : Type} {a b c : LogisticRegression2 F} (h1 : SameConfig a b)
    (h2 : SameConfig b c) : SameConfig a c :=
  ⟨h1.data.trans h2.data, h1.error.trans h2.error, h1.epochs.trans h2.epochs,
    h1.alpha.trans h2.alpha, h1.m.trans h2.m, h1.feature_length.trans h2.feature_length,
    h1.activation_func.trans h2.activation_func, h1.loss_func.trans h2.loss_func,
    h1.optim.trans h2.optim, h1.batch_size.trans h2.batch_size, h1.w_len.trans h2.w_len,
    h1.o_len.trans h2.o_len, h1.shuffle.trans h2.shuffle⟩

theorem trainReady_of_same {F : Type} {a b : LogisticRegression2 F} {d : Database F}
    (h : TrainReady b d) (hs : SameConfig a b) : TrainReady a d where
  data := (SameConfig.data hs).trans (TrainReady.data h)
  fl_nonneg := by rw [SameConfig.feature_length hs]; exact TrainReady.fl_nonneg h
  m_pos := by rw [SameConfig.m hs]; exact TrainReady.m_pos h
  samples_len := by rw [SameConfig.m hs]; exact TrainReady.samples_len h
  labels_len := TrainReady.labels_len h
  o_len := by rw [SameConfig.m hs, SameConfig.o_len hs]; exact TrainReady.o_len h
  x_len := by rw [SameConfig.feature_length hs]; exact TrainReady.x_len h

/-- A property that every iteration of a loop preserves holds for its result. -/
theorem foldlM_inv {σ α : Type} (P : σ → Prop) (f : σ → α → Option σ) (l : List α)
    (hstep : ∀ s a s1, f s a = some s1 → P s → P s1) (init r : σ) (h0 : P init)
    (h : l.foldlM f init = some r) : P r := by
  induction l generalizing init with
  | nil =>
    simp only [List.foldlM_nil, Option.pure_def, Option.some.injEq] at h
    exact h ▸ h0
  | cons a t ih =>
    simp only [List.foldlM_cons, Option.bind_eq_bind, Option.bind_eq_some] at h
    obtain ⟨s1, hs1, hr⟩ := h
    exact ih s1 (hstep init a s1 hs1 h0) hr

section Frames
variable {F : Type} [Field F]

theorem apply_dw_length (n : Nat) (alpha : F) (len : Int) (dw w : List F)
    (r : List F × List F) (h : apply_dw n alpha len dw w = some r) :
    r.2.length = w.length := by
  unfold apply_dw at h
  refine foldlM_inv (fun st => st.2.length = w.length) _ _ ?_ _ _ rfl h
  intro s j s1 hs hP
  simp only [Option.bind_eq_bind, Option.bind_eq_some, Option.pure_def, Option.some.injEq] at hs
  obtain ⟨_, _, _, _, _, _, rfl⟩ := hs
  simpa using hP

/-- A call of `calculate_gradient_descent` that returns has changed at most the
weights (not their number), the bias and the content of the activation cache. -/
theorem calculate_gradient_descent_same [HasExp F] (self s1 : LogisticRegression2 F) (start end_ : Int)
    (h : self.calculate_gradient_descent start end_ = some s1) : SameConfig s1 self := by
  unfold LogisticRegression2.calculate_gradient_descent at h
  by_cases hfl : self.feature_length_ < 0
  · simp [hfl] at h
  simp only [hfl, if_false] at h
  cases hopt : self.optim_ <;> simp only [hopt] at h
  · by_cases hm : self.m_ < 0
    · simp [hm] at h
    simp only [hm, if_false, Option.bind_eq_bind, Option.bind_eq_some, Option.pure_def,
      Option.some.injEq] at h
    obtain ⟨acc, hacc, upd, hupd, rfl⟩ := h
    have hlen := apply_dw_length _ _ _ _ _ _ hupd
    have ho : acc.2.2.length = self.o_.length := by
      refine foldlM_inv (fun (st : List F × F × List F) => st.2.2.length = self.o_.length)
        _ _ ?_ _ _ rfl hacc
      intro s j s1 hs hP
      simp only [Option.bind_eq_bind, Option.bind_eq_some, Option.pure_def,
        Option.some.injEq] at hs
      obtain ⟨_, _, _, _, _, _, _, _, _, _, _, _, rfl⟩ := hs
      simpa using hP
    exact ⟨rfl, rfl, rfl, rfl, rfl, rfl, rfl, rfl, hopt.symm, rfl, hlen, ho, List.Perm.refl _⟩
  · by_cases hl : end_ - start < 0
    · simp [hl] at h
    simp only [hl, if_false, Option.bind_eq_bind, Option.bind_eq_some, Option.pure_def,
      Option.some.injEq] at h
    obtain ⟨acc, hacc, upd, hupd, rfl⟩ := h
    have hlen := apply_dw_length _ _ _ _ _ _ hupd
    exact ⟨rfl, rfl, rfl, rfl, rfl, rfl, rfl, rfl, hopt.symm, rfl, hlen, rfl, List.Perm.refl _⟩
  · by_cases hl : end_ - start < 0
    · simp [hl] at h
    simp only [hl, if_false, Option.bind_eq_bind, Option.bind_eq_some, Option.pure_def,
      Option.some.injEq] at h
    obtain ⟨acc, hacc, upd, hupd, rfl⟩ := h
    have hlen := apply_dw_length _ _ _ _ _ _ hupd
    exact ⟨rfl, rfl, rfl, rfl, rfl, rfl, rfl, rfl, hopt.symm, rfl, hlen, rfl, List.Perm.refl _⟩

/-- The loop that refreshes the activation cache changes the content of the
cache only, not its length. -/
theorem refresh_outputs_same [HasExp F] (self s1 : LogisticRegression2 F)
    (h : refresh_outputs self = some s1) :
    SameConfig s1 self ∧ s1.w_ = self.w_ ∧ s1.b_ = self.b_
      ∧ s1.random_shuffle_ = self.random_shuffle_ := by
  unfold refresh_outputs at h
  simp only [Option.bind_eq_bind, Option.bind_eq_some, Option.pure_def, Option.some.injEq] at h
  obtain ⟨o1, ho1, rfl⟩ := h
  have ho : o1.length = self.o_.length := by
    refine foldlM_inv (fun (o : List F) => o.length = self.o_.length) _ _ ?_ _ _ rfl ho1
    intro s j s1 hs hP
    simp only [Option.bind_eq_bind, Option.bind_eq_some, Option.pure_def, Option.some.injEq] at hs
    obtain ⟨_, _, _, _, _, _, _, _, rfl⟩ := hs
    simpa using hP
  exact ⟨⟨rfl, rfl, rfl, rfl, rfl, rfl, rfl, rfl, rfl, rfl, rfl, ho, List.Perm.refl _⟩,
    rfl, rfl, rfl⟩

theorem batch_update_same [HasExp F] (self s1 : LogisticRegression2 F) (i : Int)
    (h : batch_update self i = some s1) : SameConfig s1 self := by
  unfold batch_update at h
  simp only [Option.bind_eq_bind, Option.bind_eq_some] at h
  obtain ⟨s0, h0, h1⟩ := h
  exact (refresh_outputs_same _ _ h1).1.trans (calculate_gradient_descent_same _ _ _ _ h0)

end Frames

/-! ## Training returns -/

/-- A shuffled identity index has the length of the identity and holds valid
sample indices only. -/
theorem perm_identity_bounds (rs : List Int) (n : Nat) (h : rs.Perm (identity_index n)) :
    rs.length = n ∧ ∀ p, p < n → 0 ≤ rs.getD p 0 ∧ (rs.getD p 0).toNat < n := by
  have hlen : rs.length = n := by
    have := h.length_eq
    simpa [identity_index] using this
  refine ⟨hlen, fun p hp => ?_⟩
  have hmem : rs.getD p 0 ∈ rs := by
    rw [List.getD_eq_getElem?_getD, List.getElem?_eq_getElem (by omega)]
    exact List.getElem_mem _
  have := h.subset hmem
  simp only [identity_index, List.mem_map, List.mem_range] at this
  obtain ⟨q, hq, hqe⟩ := this
  rw [← hqe]
  omega

theorem calculate_gradient_descent_total_bgd {F : Type} [Field F] [HasExp F] (self : LogisticRegression2 F) (d : Database F)
    (start end_ : Int) (hr : TrainReady self d)
    (hw : self.feature_length_.toNat ≤ self.w_.length)
    (hopt : self.optim_ = Optimization.BGD) :
    ∃ s1, self.calculate_gradient_descent start end_ = some s1 :=
  ⟨_, cgd_bgd_eq self d start end_ hopt hr.data hr.fl_nonneg hw (by have := hr.m_pos; omega)
    hr.samples_len (by have := hr.labels_len; have := hr.samples_len; omega) hr.o_len
    (fun i hi => hr.x_len i (by have := hr.samples_len; omega))⟩

theorem calculate_cost_function_total {F : Type} [Field F] (self : LogisticRegression2 F) (d : Database F)
    (hr : TrainReady self d) : ∃ c, self.calculate_cost_function = some c :=
  ⟨_, calculate_cost_function_eq self d hr.data (by have := hr.m_pos; omega)
    (by have := hr.labels_len; have := hr.samples_len; omega) hr.o_len⟩

theorem refresh_outputs_total {F : Type} [Field F] [HasExp F] (self : LogisticRegression2 F) (d : Database F)
    (hr : TrainReady self d) (hw : self.feature_length_.toNat ≤ self.w_.length) :
    ∃ s1, refresh_outputs self = some s1 :=
  ⟨_, refresh_outputs_eq self d hr.data hw hr.samples_len hr.o_len
    (fun i hi => hr.x_len i (by have := hr.samples_len; omega))⟩

theorem range_index_sgd {F : Type} (self : LogisticRegression2 F) (start : Int) (k : Nat)
    (hopt : self.optim_ ≠ Optimization.BGD) :
    self.range_index start k = (self.random_shuffle_.getD (start + k).toNat 0).toNat := by
  unfold LogisticRegression2.range_index
  cases h : self.optim_ <;> simp_all

theorem calculate_gradient_descent_total_sgd {F : Type} [Field F] [HasExp F] (self : LogisticRegression2 F) (d : Database F)
    (start end_ : Int) (hr : TrainReady self d)
    (hw : self.feature_length_.toNat ≤ self.w_.length)
    (hopt : self.optim_ ≠ Optimization.BGD)
    (hp : self.random_shuffle_.Perm (identity_index d.samples.length))
    (h0 : 0 ≤ start) (hse : start ≤ end_) (hem : end_ ≤ self.m_) :
    ∃ s1, self.calculate_gradient_descent start end_ = some s1 := by
  obtain ⟨hlen, hb⟩ := perm_identity_bounds _ _ hp
  have hsl := hr.samples_len
  have hll := hr.labels_len
  refine ⟨_, cgd_sgd_eq self d start end_ hopt hr.data hr.fl_nonneg hw h0 hse (by omega) ?_⟩
  intro k hk
  have hpos : (start + (k : Int)).toNat < d.samples.length := by omega
  obtain ⟨hb1, hb2⟩ := hb _ hpos
  rw [range_index_sgd self start k hopt]
  exact ⟨hb1, hb2, by omega, hr.x_len _ hb2⟩

theorem batch_update_total {F : Type} [Field F] [HasExp F] (self : LogisticRegression2 F) (d : Database F) (i : Int)
    (hr : TrainReady self d) (hw : self.feature_length_.toNat ≤ self.w_.length)
    (hopt : self.optim_ ≠ Optimization.BGD)
    (hp : self.random_shuffle_.Perm (identity_index d.samples.length))
    (hbs : 1 ≤ self.batch_size_) (hi0 : 0 ≤ i)
    (hi : i < batch_count self.m_ self.batch_size_) :
    ∃ s2, batch_update self i = some s2 := by
  obtain ⟨h0, h1, h2, _⟩ := batch_bounds self.m_ self.batch_size_
    (by have := hr.m_pos; omega) hbs i hi0 hi
  obtain ⟨s1, hs1⟩ := calculate_gradient_descent_total_sgd self d _ _ hr hw hopt hp h0
    (le_of_lt h1) h2
  have hsame := calculate_gradient_descent_same _ _ _ _ hs1
  obtain ⟨s2, hs2⟩ := refresh_outputs_total s1 d (trainReady_of_same hr hsame)
    (by rw [hsame.feature_length, hsame.w_len]; exact hw)
  exact ⟨s2, by unfold batch_update; simp [hs1, hs2]⟩

/-! ## The stopping rule of the training loops -/

/-- The epoch loop of the batch variant: the lines it prints correspond one to
one to the updates it applies, no line but the last has a cost below the
threshold, and it stops before the last epoch only on a cost below the
threshold. -/
theorem train_bgd_loop_spec {F : Type} [LinearOrderedField F] [HasExp F] (fuel : Nat) :
    ∀ (iter : Int) (self : LogisticRegression2 F) (log : List (LogLine F))
      (r : LogisticRegression2 F × List (LogLine F)),
      train_bgd_loop fuel iter self log = some r →
      SameConfig r.1 self ∧ ∃ new, r.2 = log ++ new ∧ new.length ≤ fuel
        ∧ bgd_updates new.length self = some r.1
        ∧ (∀ j l, new[j]? = some l → j + 1 < new.length → ¬ l.cost < self.error_)
        ∧ (new.length < fuel → ∃ l, new.getLast? = some l ∧ l.cost < self.error_) := by
  induction fuel with
  | zero =>
    intro iter self log r h
    simp only [train_bgd_loop, Option.some.injEq] at h
    subst h
    exact ⟨SameConfig.refl _, [], by simp, by simp, rfl, by simp, by simp⟩
  | succ fuel ih =>
    intro iter self log r h
    simp only [train_bgd_loop, Option.bind_eq_bind, Option.bind_eq_some] at h
    obtain ⟨s1, hs1, c, hc, h⟩ := h
    have hsame := calculate_gradient_descent_same _ _ _ _ hs1
    by_cases hlt : c < s1.error_
    · simp only [hlt, if_true, Option.pure_def, Option.some.injEq] at h
      subst h
      refine ⟨hsame, [⟨iter, none, c⟩], rfl, by simp, ?_, ?_, ?_⟩
      · simp [bgd_updates, hs1]
      · intro j l _ hj
        simp at hj
      · intro _
        exact ⟨_, rfl, hsame.error ▸ hlt⟩
    · simp only [hlt, if_false] at h
      obtain ⟨hsame2, new, hnew, hlen, hupd, hbefore, hlast⟩ := ih _ _ _ _ h
      refine ⟨hsame2.trans hsame, ⟨iter, none, c⟩ :: new, by simp [hnew], by simp; omega,
        ?_, ?_, ?_⟩
      · simp [bgd_updates, hs1, hupd]
      · intro j l hl hj
        cases j with
        | zero =>
          simp only [List.getElem?_cons_zero, Option.some.injEq] at hl
          subst hl
          exact hsame.error ▸ hlt
        | succ j =>
          simp only [List.getElem?_cons_succ] at hl
          simp only [List.length_cons] at hj
          exact hsame.error ▸ hbefore j l hl (by omega)
      · intro hlt2
        simp only [List.length_cons] at hlt2
        obtain ⟨l, hl, hcost⟩ := hlast (by omega)
        refine ⟨l, ?_, hsame.error ▸ hcost⟩
        cases new with
        | nil => simp at hl
        | cons a t => simpa using hl

/-- The batch loop of one epoch, from batch `i` on: the same stopping rule, and
the variable `cost_value` holds the cost of the last line printed. -/
theorem train_batch_loop_spec {F : Type} [LinearOrderedField F] [HasExp F] (iter : Int)
    (fuel : Nat) :
    ∀ (i : Int) (self : LogisticRegression2 F) (log : List (LogLine F)) (c : F)
      (r : LogisticRegression2 F × List (LogLine F) × F),
      train_batch_loop iter fuel i self log c = some r →
      SameConfig r.1 self ∧ ∃ new, r.2.1 = log ++ new ∧ new.length ≤ fuel
        ∧ batch_updates new.length i self = some r.1
        ∧ (∀ j l, new[j]? = some l → j + 1 < new.length → ¬ l.cost < self.error_)
        ∧ (new.length < fuel → ∃ l, new.getLast? = some l ∧ l.cost < self.error_)
        ∧ (new = [] → r.2.2 = c)
        ∧ (∀ l, new.getLast? = some l → r.2.2 = l.cost) := by
  induction fuel with
  | zero =>
    intro i self log c r h
    simp only [train_batch_loop, Option.some.injEq] at h
    subst h
    exact ⟨SameConfig.refl _, [], by simp, by simp, rfl, by simp, by simp, by simp, by simp⟩
  | succ fuel ih =>
    intro i self log c0 r h
    simp only [train_batch_loop, Option.bind_eq_bind, Option.bind_eq_some] at h
    obtain ⟨s1, hs1, c, hc, h⟩ := h
    have hsame := batch_update_same _ _ _ hs1
    by_cases hlt : c < s1.error_
    · simp only [hlt, if_true, Option.pure_def, Option.some.injEq] at h
      subst h
      refine ⟨hsame, [⟨iter, some i, c⟩], rfl, by simp, ?_, ?_, ?_, by simp, ?_⟩
      · simp [batch_updates, hs1]
      · intro j l _ hj
        simp at hj
      · intro _
        exact ⟨_, rfl, hsame.error ▸ hlt⟩
      · intro l hl
        simp only [List.getLast?_singleton, Option.some.injEq] at hl
        subst hl
        rfl
    · simp only [hlt, if_false] at h
      obtain ⟨hsame2, new, hnew, hlen, hupd, hbefore, hlast, hnil, hcv⟩ := ih _ _ _ _ _ h
      refine ⟨hsame2.trans hsame, ⟨iter, some i, c⟩ :: new, by simp [hnew], by simp; omega,
        ?_, ?_, ?_, by simp, ?_⟩
      · simp [batch_updates, hs1, hupd]
      · intro j l hl hj
        cases j with
        | zero =>
          simp only [List.getElem?_cons_zero, Option.some.injEq] at hl
          subst hl
          exact hsame.error ▸ hlt
        | succ j =>
          simp only [List.getElem?_cons_succ] at hl
          simp only [List.length_cons] at hj
          exact hsame.error ▸ hbefore j l hl (by omega)
      · intro hlt2
        simp only [List.length_cons] at hlt2
        obtain ⟨l, hl, hcost⟩ := hlast (by omega)
        refine ⟨l, ?_, hsame.error ▸ hcost⟩
        cases new with
        | nil => simp at hl
        | cons a t => simpa using hl
      · intro l hl
        cases new with
        | nil =>
          simp only [List.getLast?_singleton, Option.some.injEq] at hl
          subst hl
          exact hnil rfl
        | cons a t =>
          exact hcv l (by simpa using hl)

theorem shuffle_same {F : Type} (rng : RandomSource F) (iter : Nat)
    (self : LogisticRegression2 F) :
    SameConfig { self with random_shuffle_ := rng.shuffle iter self.random_shuffle_ } self :=
  ⟨rfl, rfl, rfl, rfl, rfl, rfl, rfl, rfl, rfl, rfl, rfl, rfl, rng.shuffle_perm _ _⟩

/-- The epoch loop of the stochastic/mini-batch variant, every epoch having at
least one batch: the lines it prints correspond one to one to the updates it
applies, no line but the last has a cost below the threshold, it stops before
the last batch of the last epoch only on a cost below the threshold, and the
state it returns is the state after `e` whole epochs and `k` more batches,
`e * loop + k` being the number of lines. -/
theorem train_sgd_loop_spec {F : Type} [LinearOrderedField F] [HasExp F] (rng : RandomSource F)
    (fuel : Nat) :
    ∀ (iter : Int) (self : LogisticRegression2 F) (log : List (LogLine F)) (c : F)
      (r : LogisticRegression2 F × List (LogLine F) × F),
      1 ≤ batch_count self.m_ self.batch_size_ →
      train_sgd_loop rng fuel iter self log c = some r →
      SameConfig r.1 self ∧ ∃ new, r.2.1 = log ++ new
        ∧ new.length ≤ fuel * (batch_count self.m_ self.batch_size_).toNat
        ∧ (∀ j l, new[j]? = some l → j + 1 < new.length → ¬ l.cost < self.error_)
        ∧ (new.length < fuel * (batch_count self.m_ self.batch_size_).toNat →
            ∃ l, new.getLast? = some l ∧ l.cost < self.error_)
        ∧ ∃ e k, new.length = e * (batch_count self.m_ self.batch_size_).toNat + k
            ∧ k ≤ (batch_count self.m_ self.batch_size_).toNat
            ∧ sgd_updates rng e k iter self = some r.1 := by
  induction fuel with
  | zero =>
    intro iter self log c r _ h
    simp only [train_sgd_loop, Option.some.injEq] at h
    subst h
    exact ⟨SameConfig.refl _, [], by simp, by simp, by simp, by simp, 0, 0, by simp, by simp,
      by simp [sgd_updates, epoch_updates]⟩
  | succ fuel ih =>
    intro iter self log c r hL h
    simp only [train_sgd_loop] at h
    by_cases hbs0 : self.batch_size_ = 0
    · simp [hbs0] at h
    simp only [hbs0, if_false, Option.bind_eq_bind, Option.bind_eq_some] at h
    obtain ⟨r0, hr0, h⟩ := h
    have hsh := shuffle_same rng iter.toNat self
    obtain ⟨hsame0, new0, hnew0, hlen0, hupd0, hbefore0, hlast0, hnil0, hcv0⟩ :=
      train_batch_loop_spec iter _ _ _ _ _ _ hr0
    have hs0 : SameConfig r0.1 self := hsame0.trans hsh
    have hne : new0 ≠ [] := by
      intro hnil
      have : new0.length < (batch_count self.m_ self.batch_size_).toNat := by
        rw [hnil]; simp; omega
      obtain ⟨l, hl, _⟩ := hlast0 this
      rw [hnil] at hl
      simp at hl
    obtain ⟨last, hlastmem⟩ : ∃ l, new0.getLast? = some l := by
      cases hq : new0.getLast? with
      | none => exact absurd (List.getLast?_eq_none_iff.mp hq) hne
      | some l => exact ⟨l, rfl⟩
    have hcv := hcv0 last hlastmem
    have hlastidx : new0[new0.length - 1]? = some last := by
      rw [← hlastmem, List.getLast?_eq_getElem?]
    by_cases hlt : r0.2.2 < r0.1.error_
    · simp only [hlt, if_true, Option.pure_def, Option.some.injEq] at h
      subst h
      have hpos : 0 < new0.length := List.length_pos.mpr hne
      refine ⟨hs0, new0, hnew0, by rw [Nat.succ_mul]; exact le_trans hlen0 (Nat.le_add_left _ _),
        hbefore0, ?_, 0, new0.length, by simp, hlen0, ?_⟩
      · intro _
        exact ⟨last, hlastmem, by rw [← hcv, ← hs0.error]; exact hlt⟩
      · simp only [sgd_updates, epoch_updates, Option.bind_eq_bind, Option.some_bind,
          Nat.pos_iff_ne_zero.mp hpos, if_false, Nat.cast_zero, add_zero]
        exact hupd0
    · simp only [hlt, if_false] at h
      have hfull : new0.length = (batch_count self.m_ self.batch_size_).toNat := by
        by_contra hcon
        obtain ⟨l, hl, hcost⟩ := hlast0 (lt_of_le_of_ne hlen0 hcon)
        rw [hlastmem, Option.some.injEq] at hl
        subst hl
        exact hlt (by rw [hcv, hs0.error]; exact hcost)
      have hL1 : 1 ≤ batch_count r0.1.m_ r0.1.batch_size_ := by
        rw [hs0.m, hs0.batch_size]; exact hL
      obtain ⟨hsame1, new1, hnew1, hlen1, hbefore1, hlast1, e, k, hek, hk, hupd1⟩ :=
        ih _ _ _ _ _ hL1 h
      rw [hs0.m, hs0.batch_size] at hlen1 hlast1 hek hk
      rw [hs0.error] at hbefore1 hlast1
      refine ⟨hsame1.trans hs0, new0 ++ new1, by rw [hnew1, hnew0, List.append_assoc], ?_, ?_,
        ?_, e + 1, k, ?_, hk, ?_⟩
      · simp only [List.length_append, hfull, Nat.succ_mul]
        omega
      · intro j l hl hj
        simp only [List.length_append] at hj
        by_cases hj0 : j < new0.length
        · rw [List.getElem?_append_left hj0] at hl
          by_cases hj1 : j + 1 < new0.length
          · exact hbefore0 j l hl hj1
          · have hje : j = new0.length - 1 := by omega
            rw [hje, hlastidx, Option.some.injEq] at hl
            subst hl
            rw [← hcv, ← hs0.error]
            exact hlt
        · rw [List.getElem?_append_right (by omega)] at hl
          exact hbefore1 _ l hl (by omega)
      · intro hlt2
        simp only [List.length_append, hfull, Nat.succ_mul] at hlt2
        obtain ⟨l, hl, hcost⟩ := hlast1 (by omega)
        refine ⟨l, ?_, hcost⟩
        have hne1 : new1 ≠ [] := by
          intro hnil
          rw [hnil] at hl
          simp at hl
        rw [List.getLast?_append_of_ne_nil _ hne1]
        exact hl
      · simp only [List.length_append, hfull, hek, Nat.succ_mul]
        omega
      · rw [hfull] at hupd0
        have hcast : (iter + ((e + 1 : Nat) : Int)).toNat = (iter + 1 + (e : Int)).toNat := by
          congr 1
          push_cast
          ring
        simp only [sgd_updates, epoch_updates, Option.bind_eq_bind, hupd0, Option.some_bind,
          hcast]
        simpa only [sgd_updates, Option.bind_eq_bind] using hupd1

theorem train_bgd_loop_total {F : Type} [LinearOrderedField F] [HasExp F] (d : Database F)
    (fuel : Nat) :
    ∀ (iter : Int) (self : LogisticRegression2 F) (log : List (LogLine F)),
      TrainReady self d → self.feature_length_.toNat ≤ self.w_.length →
      self.optim_ = Optimization.BGD →
      ∃ r, train_bgd_loop fuel iter self log = some r := by
  induction fuel with
  | zero => intro iter self log _ _ _; exact ⟨_, rfl⟩
  | succ fuel ih =>
    intro iter self log hr hw hopt
    obtain ⟨s1, hs1⟩ := calculate_gradient_descent_total_bgd self d 0 0 hr hw hopt
    have hsame := calculate_gradient_descent_same _ _ _ _ hs1
    have hr1 := trainReady_of_same hr hsame
    obtain ⟨c, hc⟩ := calculate_cost_function_total s1 d hr1
    by_cases hlt : c < s1.error_
    · exact ⟨(s1, log ++ [⟨iter, none, c⟩]), by simp [train_bgd_loop, hs1, hc, hlt]⟩
    · obtain ⟨r, hrr⟩ := ih (iter + 1) s1 (log ++ [⟨iter, none, c⟩]) hr1
        (by rw [hsame.feature_length, hsame.w_len]; exact hw) (hsame.optim.trans hopt)
      exact ⟨r, by simp [train_bgd_loop, hs1, hc, hlt, hrr]⟩

theorem train_batch_loop_total {F : Type} [LinearOrderedField F] [HasExp F] (d : Database F)
    (iter : Int) (fuel : Nat) :
    ∀ (i : Int) (self : LogisticRegression2 F) (log : List (LogLine F)) (c : F),
      TrainReady self d → self.feature_length_.toNat ≤ self.w_.length →
      self.optim_ ≠ Optimization.BGD →
      self.random_shuffle_.Perm (identity_index d.samples.length) →
      1 ≤ self.batch_size_ → 0 ≤ i → i + fuel ≤ batch_count self.m_ self.batch_size_ →
      ∃ r, train_batch_loop iter fuel i self log c = some r := by
  induction fuel with
  | zero => intro i self log c _ _ _ _ _ _ _; exact ⟨_, rfl⟩
  | succ fuel ih =>
    intro i self log c0 hr hw hopt hp hbs hi0 hi
    push_cast at hi
    obtain ⟨s1, hs1⟩ := batch_update_total self d i hr hw hopt hp hbs hi0 (by omega)
    have hsame := batch_update_same _ _ _ hs1
    have hr1 := trainReady_of_same hr hsame
    obtain ⟨c, hc⟩ := calculate_cost_function_total s1 d hr1
    by_cases hlt : c < s1.error_
    · exact ⟨(s1, log ++ [⟨iter, some i, c⟩], c), by simp [train_batch_loop, hs1, hc, hlt]⟩
    · obtain ⟨r, hrr⟩ := ih (i + 1) s1 (log ++ [⟨iter, some i, c⟩]) c hr1
        (by rw [hsame.feature_length, hsame.w_len]; exact hw)
        (by rw [hsame.optim]; exact hopt) (hsame.shuffle.trans hp)
        (by rw [hsame.batch_size]; exact hbs) (by omega)
        (by rw [hsame.m, hsame.batch_size]; omega)
      exact ⟨r, by simp [train_batch_loop, hs1, hc, hlt, hrr]⟩

theorem train_sgd_loop_total {F : Type} [LinearOrderedField F] [HasExp F] (d : Database F)
    (rng : RandomSource F) (fuel : Nat) :
    ∀ (iter : Int) (self : LogisticRegression2 F) (log : List (LogLine F)) (c : F),
      TrainReady self d → self.feature_length_.toNat ≤ self.w_.length →
      self.optim_ ≠ Optimization.BGD →
      self.random_shuffle_.Perm (identity_index d.samples.length) →
      1 ≤ self.batch_size_ →
      ∃ r, train_sgd_loop rng fuel iter self log c = some r := by
  induction fuel with
  | zero => intro iter self log c _ _ _ _ _; exact ⟨_, rfl⟩
  | succ fuel ih =>
    intro iter self log c hr hw hopt hp hbs
    have hsh := shuffle_same rng iter.toNat self
    have hcount : 0 ≤ batch_count self.m_ self.batch_size_ := by
      have := (lt_batch_count_iff self.m_ self.batch_size_ (by have := hr.m_pos; omega) hbs 0).mpr
        (by simp only [batch_start, zero_mul]; have := hr.m_pos; omega)
      omega
    obtain ⟨r0, hr0⟩ := train_batch_loop_total d iter
      (batch_count self.m_ self.batch_size_).toNat 0
      { self with random_shuffle_ := rng.shuffle iter.toNat self.random_shuffle_ } log c
      (trainReady_of_same hr hsh) hw hopt (hsh.shuffle.trans hp) hbs (le_refl 0)
      (by rw [zero_add, Int.toNat_of_nonneg hcount])
    have hsame0 := ((train_batch_loop_spec iter _ _ _ _ _ _ hr0).1).trans hsh
    have hbs0 : ¬ self.batch_size_ = 0 := by omega
    by_cases hlt : r0.2.2 < r0.1.error_
    · exact ⟨r0, by simp [train_sgd_loop, hbs0, hr0, hlt]⟩
    · obtain ⟨r, hrr⟩ := ih (iter + 1) r0.1 r0.2.1 r0.2.2 (trainReady_of_same hr hsame0)
        (by rw [hsame0.feature_length, hsame0.w_len]; exact hw)
        (by rw [hsame0.optim]; exact hopt) (hsame0.shuffle.trans hp)
        (by rw [hsame0.batch_size]; exact hbs)
      exact ⟨r, by simp [train_sgd_loop, hbs0, hr0, hlt, hrr]⟩

theorem draw_parameters_ready {F : Type} [LinearOrderedField F] [HasExp F]
    (self : LogisticRegression2 F) (d : Database F) (rng : RandomSource F)
    (hr : TrainReady self d) :
    TrainReady (self.draw_parameters rng) d
      ∧ (self.draw_parameters rng).feature_length_.toNat = (self.draw_parameters rng).w_.length :=
  ⟨⟨hr.data, hr.fl_nonneg, hr.m_pos, hr.samples_len, hr.labels_len, hr.o_len, hr.x_len⟩,
    by simp [LogisticRegression2.draw_parameters]⟩

/-- The parameter part of `train` on a state whose dataset covers the indices
used: it returns, the weight vector it leaves has `feature_length_` entries,
and the lines it has printed obey the stopping rule of the selected loop. -/
theorem train_parameters_spec {F : Type} [LinearOrderedField F] [HasExp F]
    (self : LogisticRegression2 F) (d : Database F) (rng : RandomSource F)
    (hr : TrainReady self d)
    (hbs : self.optim_ ≠ Optimization.BGD → 1 ≤ self.batch_size_) :
    ∃ s log, self.train_parameters rng = some (s, log)
      ∧ s.w_.length = self.feature_length_.toNat
      ∧ s.feature_length_ = self.feature_length_
      ∧ (∀ j l, log[j]? = some l → j + 1 < log.length → ¬ l.cost < self.error_)
      ∧ (self.optim_ = Optimization.BGD →
          log.length ≤ self.epochs_.toNat
          ∧ (log.length < self.epochs_.toNat →
              ∃ l, log.getLast? = some l ∧ l.cost < self.error_)
          ∧ bgd_updates log.length (self.draw_parameters rng) = some s)
      ∧ (self.optim_ ≠ Optimization.BGD →
          log.length ≤ self.epochs_.toNat * (batch_count self.m_ self.batch_size_).toNat
          ∧ (log.length < self.epochs_.toNat * (batch_count self.m_ self.batch_size_).toNat →
              ∃ l, log.getLast? = some l ∧ l.cost < self.error_)
          ∧ ∃ e k, log.length = e * (batch_count self.m_ self.batch_size_).toNat + k
              ∧ k ≤ (batch_count self.m_ self.batch_size_).toNat
              ∧ sgd_updates rng e k 0
                  { self.draw_parameters rng with
                      random_shuffle_ := identity_index d.samples.length } = some s) := by
  obtain ⟨hr2, hw2⟩ := draw_parameters_ready self d rng hr
  have hfl : ¬ self.feature_length_ < 0 := not_lt.mpr hr.fl_nonneg
  by_cases hopt : self.optim_ = Optimization.BGD
  · obtain ⟨r, hrr⟩ := train_bgd_loop_total d self.epochs_.toNat 0 (self.draw_parameters rng) []
      hr2 (le_of_eq hw2) hopt
    obtain ⟨hsame, new, hnew, hlen, hupd, hbefore, hlast⟩ :=
      train_bgd_loop_spec _ _ _ _ _ hrr
    rw [List.nil_append] at hnew
    have htp : self.train_parameters rng = some (r.1, r.2) := by
      unfold LogisticRegression2.train_parameters
      rw [if_neg hfl]
      simp only []
      rw [if_pos (show (self.draw_parameters rng).optim_ = Optimization.BGD from hopt)]
      exact hrr
    refine ⟨r.1, r.2, htp, ?_, hsame.feature_length, ?_, ?_, fun h => absurd hopt h⟩
    · rw [hsame.w_len]; exact hw2.symm
    · rw [hnew]; exact hbefore
    · intro _
      rw [hnew]
      exact ⟨hlen, hlast, hupd⟩
  · have hbs1 := hbs hopt
    have hL : 1 ≤ batch_count self.m_ self.batch_size_ := by
      have := (lt_batch_count_iff self.m_ self.batch_size_ (by have := hr.m_pos; omega) hbs1 0).mpr
        (by simp only [batch_start, zero_mul]; have := hr.m_pos; omega)
      omega
    obtain ⟨r, hrr⟩ := train_sgd_loop_total d rng self.epochs_.toNat 0
      { self.draw_parameters rng with random_shuffle_ := identity_index d.samples.length } [] 0
      ⟨hr.data, hr.fl_nonneg, hr.m_pos, hr.samples_len, hr.labels_len, hr.o_len, hr.x_len⟩
      (le_of_eq hw2) hopt (List.Perm.refl _) hbs1
    obtain ⟨hsame, new, hnew, hlen, hbefore, hlast, e, k, hek, hk, hupd⟩ :=
      train_sgd_loop_spec rng _ _
        { self.draw_parameters rng with random_shuffle_ := identity_index d.samples.length }
        _ _ _ hL hrr
    rw [List.nil_append] at hnew
    have htp : self.train_parameters rng = some (r.1, r.2.1) := by
      unfold LogisticRegression2.train_parameters
      rw [if_neg hfl]
      simp only []
      rw [if_neg (show ¬ (self.draw_parameters rng).optim_ = Optimization.BGD from hopt)]
      have hd : (self.draw_parameters rng).data_ = some d := hr.data
      simp only [hd, Option.bind_eq_bind, Option.some_bind]
      have hrr2 : train_sgd_loop rng (self.draw_parameters rng).epochs_.toNat 0
          { self.draw_parameters rng with random_shuffle_ := identity_index d.samples.length }
          [] 0 = some r := hrr
      simp only [hd] at hrr2
      rw [hrr2]
      rfl
    refine ⟨r.1, r.2.1, htp, ?_, hsame.feature_length, ?_, fun h => absurd h hopt, ?_⟩
    · rw [hsame.w_len]; exact hw2.symm
    · rw [hnew]; exact hbefore
    · intro _
      rw [hnew]
      exact ⟨hlen, hlast, e, k, hek, hk, hupd⟩

/-! ## Training after a successful initialization (C8, C15, C17) -/

/-- The state that a successful `init` leaves, for a feature length that is not
negative and samples of at least that length, covers every index that training
uses. -/
theorem init_ready {F : Type} [LinearOrderedField F] (self0 self : LogisticRegression2 F)
    (data : Database F) (feature_length : Int) (learning_rate : F) (epochs : Int)
    (hinit : self0.init data feature_length learning_rate epochs = (0, self))
    (hfl : 0 ≤ feature_length)
    (hx : ∀ i, i < data.samples.length → feature_length.toNat ≤ (data.x i).length) :
    TrainReady self data ∧ 2 ≤ self.m_ ∧ self.feature_length_ = feature_length
      ∧ self.epochs_ = epochs ∧ self.optim_ = self0.optim_
      ∧ self.batch_size_ = self0.batch_size_ ∧ self.error_ = self0.error_ := by
  unfold LogisticRegression2.init CHECK at hinit
  dsimp only at hinit
  split_ifs at hinit with h1 h2 h3 h4
  · exact absurd (congrArg Prod.fst hinit) (show ¬ ((-1 : Int) = 0) by decide)
  · exact absurd (congrArg Prod.fst hinit) (show ¬ ((-1 : Int) = 0) by decide)
  · exact absurd (congrArg Prod.fst hinit) (show ¬ ((-1 : Int) = 0) by decide)
  · have hs := congrArg Prod.snd hinit
    simp only at hs
    subst hs
    have hle : (toInt32 (data.samples.length : Int)).toNat ≤ data.samples.length := by
      unfold toInt32 at h2 ⊢
      omega
    refine ⟨⟨rfl, hfl, by simp only; omega, hle, le_of_eq h1, ?_, hx⟩, by simp only; omega,
      rfl, rfl, rfl, rfl, rfl⟩
    simp only [resize_length]
    exact le_refl _
  · exact absurd (congrArg Prod.fst hinit) (show ¬ ((-1 : Int) = 0) by decide)

/-- C8 (as stated, refuted): `init` accepts two samples, learning rate 1, one
epoch and batch size 1 together with the feature length `-1`; on the state it
leaves `train` does not return: `w_.resize(feature_length_, 0.)` throws. -/
theorem train_fails_on_negative_feature_length :
    (freshReal.init twoSamples (-1) 1 1).1 = 0
      ∧ 2 ≤ (freshReal.init twoSamples (-1) 1 1).2.m_
      ∧ 0 < (freshReal.init twoSamples (-1) 1 1).2.alpha_
      ∧ 1 ≤ (freshReal.init twoSamples (-1) 1 1).2.epochs_
      ∧ 0 < (freshReal.init twoSamples (-1) 1 1).2.batch_size_
      ∧ (freshReal.init twoSamples (-1) 1 1).2.train_parameters zeroSource = none := by
  have h : freshReal.init twoSamples (-1) 1 1
      = (0, { freshReal with
                m_ := 2, alpha_ := 1, epochs_ := 1, feature_length_ := -1
                data_ := some twoSamples, o_ := resize freshReal.o_ (2 : Int).toNat 0 }) := by
    have h1 : ¬ (1 : ℝ) ≤ 0 := by norm_num
    simp [LogisticRegression2.init, CHECK, toInt32, twoSamples, h1]
  rw [h]
  refine ⟨rfl, by decide, by norm_num, by decide, by decide, ?_⟩
  simp [LogisticRegression2.train_parameters]

/-- C8 (amended): on the state that a successful `init` leaves, for a feature
length that is not negative, samples of at least that length and a batch size
> 0, the parameter part of `train` returns after at most `epochs` updates in
batch mode and at most `epochs * ceil(m/batch_size)` updates (`e` whole epochs
and `k` more batches) in stochastic/mini-batch mode, one line printed per
update, and the weight vector it leaves has exactly `feature_length` entries. -/
theorem train_terminates {F : Type} [LinearOrderedField F] [HasExp F]
    (self0 self : LogisticRegression2 F) (data : Database F) (feature_length : Int)
    (learning_rate : F) (epochs : Int) (rng : RandomSource F)
    (hinit : self0.init data feature_length learning_rate epochs = (0, self))
    (hfl : 0 ≤ feature_length)
    (hx : ∀ i, i < data.samples.length → feature_length.toNat ≤ (data.x i).length)
    (hbs : 0 < self.batch_size_) :
    ∃ s log, self.train_parameters rng = some (s, log)
      ∧ s.w_.length = feature_length.toNat
      ∧ s.feature_length_ = feature_length
      ∧ (self.optim_ = Optimization.BGD →
          log.length ≤ epochs.toNat
          ∧ bgd_updates log.length (self.draw_parameters rng) = some s)
      ∧ (self.optim_ ≠ Optimization.BGD →
          log.length ≤ epochs.toNat * (batch_count self.m_ self.batch_size_).toNat
          ∧ ∃ e k, log.length = e * (batch_count self.m_ self.batch_size_).toNat + k
              ∧ k ≤ (batch_count self.m_ self.batch_size_).toNat
              ∧ sgd_updates rng e k 0
                  { self.draw_parameters rng with
                      random_shuffle_ := identity_index data.samples.length } = some s) := by
  obtain ⟨hr, _, hfeq, hep, _, _, _⟩ :=
    init_ready self0 self data feature_length learning_rate epochs hinit hfl hx
  obtain ⟨s, log, htp, hw, hf, _, hB, hS⟩ :=
    train_parameters_spec self data rng hr (fun _ => by omega)
  rw [hfeq] at hw hf
  rw [hep] at hB hS
  exact ⟨s, log, htp, hw, hf, fun h => ⟨(hB h).1, (hB h).2.2⟩,
    fun h => ⟨(hS h).1, (hS h).2.2⟩⟩

/-- C17: on the state that a successful `init` leaves, for a feature length
that is not negative, samples of exactly that length and a batch size > 0, the
parameter part of `train` returns: no read or write leaves a vector (such an
access has no result here); the batch branch divides by `m >= 2`, and every
batch of the stochastic/mini-batch branch has a range within `[0, m)` of
length at least 1, the number it divides by. -/
theorem train_in_bounds {F : Type} [LinearOrderedField F] [HasExp F]
    (self0 self : LogisticRegression2 F) (data : Database F) (feature_length : Int)
    (learning_rate : F) (epochs : Int) (rng : RandomSource F)
    (hinit : self0.init data feature_length learning_rate epochs = (0, self))
    (hfl : 0 ≤ feature_length)
    (hx : ∀ x ∈ data.samples, (x.length : Int) = feature_length)
    (hbs : 0 < self.batch_size_) :
    (∃ r, self.train_parameters rng = some r)
      ∧ 2 ≤ self.m_
      ∧ ∀ i : Int, 0 ≤ i → i < batch_count self.m_ self.batch_size_ →
          0 ≤ batch_start i self.batch_size_
          ∧ 1 ≤ batch_end i self.batch_size_ self.m_ - batch_start i self.batch_size_
          ∧ batch_end i self.batch_size_ self.m_ ≤ self.m_ := by
  have hx2 : ∀ i, i < data.samples.length → feature_length.toNat ≤ (data.x i).length := by
    intro i hi
    have := hx (data.x i) (by
      unfold Database.x
      rw [List.getD_eq_getElem?_getD, List.getElem?_eq_getElem hi]
      exact List.getElem_mem _)
    omega
  obtain ⟨hr, hm, _, _, _, _, _⟩ :=
    init_ready self0 self data feature_length learning_rate epochs hinit hfl hx2
  obtain ⟨s, log, htp, _⟩ := train_parameters_spec self data rng hr (fun _ => by omega)
  refine ⟨⟨_, htp⟩, hm, fun i hi0 hi => ?_⟩
  obtain ⟨h0, h1, h2, _⟩ := batch_bounds self.m_ self.batch_size_ (by omega) (by omega) i hi0 hi
  exact ⟨h0, by omega, h2⟩

theorem hasExp_real (x : ℝ) : HasExp.exp x = Real.exp x := rfl

theorem sigmoid_zero : sigmoid (0 : ℝ) = 1 / 2 := by
  simp [sigmoid, hasExp_real]
  norm_num

theorem freshReal_init : freshReal.init twoSamples 1 1 1 = (0, initReal) := by
  have h1 : ¬ (1 : ℝ) ≤ 0 := by norm_num
  simp [LogisticRegression2.init, CHECK, toInt32, twoSamples, h1, initReal, freshReal, resize]

theorem initReal_draw : initReal.draw_parameters zeroSource = bgdState := rfl

/-- One update of the batch variant from weight `0` and bias `0`: the bias
becomes `1/2`, the cache holds the outputs `1/2` of the parameters of before
the update. -/
theorem bgdState_update :
    bgdState.calculate_gradient_descent 0 0
      = some { bgdState with w_ := [0], b_ := 1 / 2, o_ := [1 / 2, 1 / 2] } := by
  rw [cgd_bgd_eq bgdState twoSamples 0 0 rfl rfl (by decide) (by decide) (by decide) (by decide)
    (by decide) (by decide) (by
      intro i hi
      have hi2 : i < 2 := hi
      interval_cases i <;> decide)]
  have hd0 : spec_delta 1 [0] 0 ({ samples := [[0], [0]], labels := [1, 1] } : Database ℝ) 0
      = -(1 / 2) := by
    simp [spec_delta, spec_output, dot, sigmoid_zero, Database.y]
    norm_num
  have hd1 : spec_delta 1 [0] 0 ({ samples := [[0], [0]], labels := [1, 1] } : Database ℝ) 1
      = -(1 / 2) := by
    simp [spec_delta, spec_output, dot, sigmoid_zero, Database.y]
    norm_num
  simp [bgdState, updated_weights, hd0, hd1, Finset.sum_range_succ, twoSamples, Database.y,
    Database.x, spec_output, dot, sigmoid_zero, List.range_succ]

/-- The sigmoid of `1/2` lies strictly between `1/2` and `1`. -/
theorem sigmoid_half_bounds : 1 / 2 < sigmoid (1 / 2 : ℝ) ∧ sigmoid (1 / 2 : ℝ) < 1 := by
  have ht0 : 0 < Real.exp (-(1 / 2 : ℝ)) := Real.exp_pos _
  have ht1 : Real.exp (-(1 / 2 : ℝ)) < 1 := by
    have := Real.exp_lt_exp.mpr (show -(1 / 2 : ℝ) < 0 by norm_num)
    rwa [Real.exp_zero] at this
  simp only [sigmoid, hasExp_real]
  constructor
  · exact one_div_lt_one_div_of_lt (by linarith) (by linarith)
  · rw [div_lt_one (by linarith)]
    linarith

/-- The cost of the state after the update: computed from the cache, it is `1/8`. -/
theorem bgdState_updated_cost :
    ({ bgdState with w_ := [0], b_ := 1 / 2, o_ := [1 / 2, 1 / 2] } :
      LogisticRegression2 ℝ).calculate_cost_function = some (1 / 8) := by
  rw [calculate_cost_function_eq _ twoSamples rfl (by decide) (by decide) (by decide)]
  simp [spec_cost, Finset.sum_range_succ, bgdState, twoSamples, Database.y]
  norm_num

/-- The parameter part of `train` on the two sample dataset, one epoch of the
batch variant with weight and bias drawn as 0. -/
theorem initReal_train_parameters :
    initReal.train_parameters zeroSource
      = some ({ bgdState with w_ := [0], b_ := 1 / 2, o_ := [1 / 2, 1 / 2] },
          [⟨0, none, 1 / 8⟩]) := by
  have hfl : ¬ initReal.feature_length_ < 0 := by decide
  have hlt : ¬ ((1 / 8 : ℝ) < 0) := by norm_num
  unfold LogisticRegression2.train_parameters
  rw [if_neg hfl]
  simp only [initReal_draw]
  rw [if_pos (show bgdState.optim_ = Optimization.BGD from rfl)]
  have he : bgdState.epochs_.toNat = 0 + 1 := rfl
  rw [he]
  simp only [train_bgd_loop, bgdState_update, Option.bind_eq_bind, Option.some_bind,
    bgdState_updated_cost]
  simp [bgdState, hlt]

/-! ## The cost logged by the batch variant (C13) -/

/-- C13 (evaluation at the failing input): one epoch of the batch variant on two
samples `[0]` with label `1`, learning rate 1, weight and bias drawn as 0.  The
update leaves the parameters `w = [0]`, `b = 1/2`; the cache holds `1/2, 1/2`,
the outputs of the parameters of before the update, and the cost printed is
`1/8`, their cost; the outputs of the updated parameters are above `1/2` and
the cost of the updated parameters is strictly below `1/8`. -/
theorem bgd_logs_cost_of_previous_parameters :
    initReal.train_parameters zeroSource
        = some ({ bgdState with w_ := [0], b_ := 1 / 2, o_ := [1 / 2, 1 / 2] },
            [⟨0, none, 1 / 8⟩])
      ∧ spec_cost 2 twoSamples (spec_output 1 [0] 0 twoSamples) = 1 / 8
      ∧ spec_cost 2 twoSamples (spec_output 1 [0] (1 / 2) twoSamples) < 1 / 8
      ∧ ∀ i, i < 2 → 1 / 2 < spec_output 1 [0] (1 / 2) twoSamples i := by
  have hout0 : ∀ i, spec_output 1 [0] 0 twoSamples i = 1 / 2 := by
    intro i
    simp [spec_output, dot, sigmoid_zero]
  have hout1 : ∀ i, spec_output 1 [0] (1 / 2) twoSamples i = sigmoid (1 / 2 : ℝ) := by
    intro i
    simp [spec_output, dot]
  refine ⟨initReal_train_parameters, ?_, ?_, ?_⟩
  · simp only [spec_cost, hout0, Finset.sum_range_succ, Finset.sum_range_zero]
    simp [twoSamples, Database.y]
    norm_num
  · obtain ⟨h1, h2⟩ := sigmoid_half_bounds
    simp only [spec_cost, hout1, Finset.sum_range_succ, Finset.sum_range_zero]
    simp [twoSamples, Database.y]
    nlinarith
  · intro i _
    rw [hout1]
    exact sigmoid_half_bounds.1

/-! ## Witnesses on the two sample dataset -/

/-- Witness of `train_terminates`: after `freshReal.init twoSamples 1 1 1` the
parameter part of `train` returns after at most one update with one weight. -/
theorem train_terminates_witness :
    ∃ s log, initReal.train_parameters zeroSource = some (s, log)
      ∧ s.w_.length = 1 ∧ s.feature_length_ = 1 ∧ log.length ≤ 1
      ∧ bgd_updates log.length (initReal.draw_parameters zeroSource) = some s := by
  obtain ⟨s, log, h1, h2, h3, hB, _⟩ := train_terminates freshReal initReal twoSamples 1 1 1
    zeroSource freshReal_init (by decide)
    (by
      intro i hi
      have hi2 : i < 2 := hi
      interval_cases i <;> decide)
    (by decide)
  exact ⟨s, log, h1, h2, h3, (hB rfl).1, (hB rfl).2⟩

/-- Witness of `train_in_bounds`: after `freshReal.init twoSamples 1 1 1` the
parameter part of `train` returns. -/
theorem train_in_bounds_witness :
    (∃ r, initReal.train_parameters zeroSource = some r) ∧ 2 ≤ initReal.m_ :=
  have h := train_in_bounds freshReal initReal twoSamples 1 1 1 zeroSource freshReal_init
    (by decide)
    (by
      intro x hx
      simp only [twoSamples, List.mem_cons, List.mem_singleton, List.not_mem_nil, or_false,
        or_self] at hx
      subst hx
      rfl)
    (by decide)
  ⟨h.1, h.2.1⟩

/-- C14: in stochastic/mini-batch mode, on a state whose dataset covers the
indices used, the update of batch `i` returns; after the gradient step to
`(w', b')` the refresh leaves the parameters as they are and the cache with
`o_t = sigmoid(w'.x_t + b')` for every sample `t` in `[0, m)`; the cost then
computed, which the batch loop prints and compares against the threshold, is
`(1/m) * sum_t 1/2*(y_t - sigmoid(w'.x_t + b'))^2`. -/
theorem batch_update_refreshes_cache {F : Type} [LinearOrderedField F] [HasExp F]
    (self : LogisticRegression2 F) (d : Database F) (i : Int)
    (hr : TrainReady self d) (hw : self.feature_length_.toNat ≤ self.w_.length)
    (hopt : self.optim_ ≠ Optimization.BGD)
    (hp : self.random_shuffle_.Perm (identity_index d.samples.length))
    (hbs : 1 ≤ self.batch_size_) (hi0 : 0 ≤ i)
    (hi : i < batch_count self.m_ self.batch_size_) :
    ∃ s1 s2,
      self.calculate_gradient_descent (batch_start i self.batch_size_)
          (batch_end i self.batch_size_ self.m_) = some s1
      ∧ refresh_outputs s1 = some s2
      ∧ batch_update self i = some s2
      ∧ s2.w_ = s1.w_ ∧ s2.b_ = s1.b_
      ∧ (∀ t, t < self.m_.toNat →
          s2.o_.getD t 0 = spec_output self.feature_length_.toNat s1.w_ s1.b_ d t)
      ∧ s2.calculate_cost_function
          = some (spec_cost self.m_.toNat d
              (spec_output self.feature_length_.toNat s1.w_ s1.b_ d))
      ∧ ∀ (iter : Int) (fuel : Nat) (log : List (LogLine F)) (c : F),
          train_batch_loop iter (fuel + 1) i self log c
            = if spec_cost self.m_.toNat d
                  (spec_output self.feature_length_.toNat s1.w_ s1.b_ d) < self.error_
              then some (s2,
                log ++ [⟨iter, some i, spec_cost self.m_.toNat d
                  (spec_output self.feature_length_.toNat s1.w_ s1.b_ d)⟩],
                spec_cost self.m_.toNat d
                  (spec_output self.feature_length_.toNat s1.w_ s1.b_ d))
              else train_batch_loop iter fuel (i + 1) s2
                (log ++ [⟨iter, some i, spec_cost self.m_.toNat d
                  (spec_output self.feature_length_.toNat s1.w_ s1.b_ d)⟩])
                (spec_cost self.m_.toNat d
                  (spec_output self.feature_length_.toNat s1.w_ s1.b_ d)) := by
  obtain ⟨h0, h1, h2, _⟩ := batch_bounds self.m_ self.batch_size_
    (by have := hr.m_pos; omega) hbs i hi0 hi
  obtain ⟨s1, hs1⟩ := calculate_gradient_descent_total_sgd self d _ _ hr hw hopt hp h0
    (le_of_lt h1) h2
  have hsame := calculate_gradient_descent_same _ _ _ _ hs1
  have hr1 := trainReady_of_same hr hsame
  have hw1 : s1.feature_length_.toNat ≤ s1.w_.length := by
    rw [hsame.feature_length, hsame.w_len]; exact hw
  obtain ⟨s2, hs2, hw2, hb2, ho2⟩ : ∃ s2, refresh_outputs s1 = some s2 ∧ s2.w_ = s1.w_
      ∧ s2.b_ = s1.b_
      ∧ s2.o_ = (List.range s1.o_.length).map (fun t => if t < s1.m_.toNat
          then spec_output s1.feature_length_.toNat s1.w_ s1.b_ d t else s1.o_.getD t 0) :=
    ⟨_, refresh_outputs_eq s1 d hr1.data hw1 hr1.samples_len hr1.o_len
      (fun t ht => hr1.x_len t (by have := hr1.samples_len; omega)), rfl, rfl, rfl⟩
  have hbu : batch_update self i = some s2 := by
    unfold batch_update
    simp only [hs1, Option.bind_eq_bind, Option.some_bind]
    exact hs2
  have hsame2 := batch_update_same _ _ _ hbu
  have hr2 := trainReady_of_same hr hsame2
  have hcache : ∀ t, t < self.m_.toNat →
      s2.o_.getD t 0 = spec_output self.feature_length_.toNat s1.w_ s1.b_ d t := by
    intro t ht
    have ht1 : t < s1.o_.length := by
      have := hr1.o_len
      rw [hsame.m] at this
      omega
    have ht2 : t < s1.m_.toNat := by rw [hsame.m]; exact ht
    rw [ho2, List.getD_eq_getElem?_getD, map_range_getElem? _ _ t ht1]
    simp only [Option.getD_some, ht2, if_true, hsame.feature_length]
  have hcost : s2.calculate_cost_function
      = some (spec_cost self.m_.toNat d
          (spec_output self.feature_length_.toNat s1.w_ s1.b_ d)) := by
    rw [calculate_cost_function_eq s2 d hr2.data (by have := hr2.m_pos; omega)
      (by have := hr2.labels_len; have := hr2.samples_len; omega) hr2.o_len, hsame2.m]
    unfold spec_cost
    congr 2
    exact Finset.sum_congr rfl (fun t ht => by
      simp only [hcache t (Finset.mem_range.mp ht)])
  refine ⟨s1, s2, hs1, hs2, hbu, hw2, hb2, hcache, hcost, ?_⟩
  intro iter fuel log c
  simp only [train_batch_loop, hbu, Option.bind_eq_bind, Option.some_bind, hcost, hsame2.error,
    Option.pure_def]

/-- Witness of `batch_update_refreshes_cache`: the first batch of the two sample
dataset with the shuffle index `[1, 0]` and batch size 1. -/
theorem batch_update_refreshes_cache_witness :
    ∃ s1 s2,
      sgdState.calculate_gradient_descent (batch_start 0 sgdState.batch_size_)
          (batch_end 0 sgdState.batch_size_ sgdState.m_) = some s1
      ∧ refresh_outputs s1 = some s2
      ∧ batch_update sgdState 0 = some s2
      ∧ s2.w_ = s1.w_ ∧ s2.b_ = s1.b_
      ∧ (∀ t, t < sgdState.m_.toNat →
          s2.o_.getD t 0 = spec_output sgdState.feature_length_.toNat s1.w_ s1.b_ twoSamples t)
      ∧ s2.calculate_cost_function
          = some (spec_cost sgdState.m_.toNat twoSamples
              (spec_output sgdState.feature_length_.toNat s1.w_ s1.b_ twoSamples)) := by
  obtain ⟨s1, s2, h1, h2, h3, h4, h5, h6, h7, _⟩ :=
    batch_update_refreshes_cache sgdState twoSamples 0
      ⟨rfl, by decide, by decide, by decide, by decide, by decide, by
        intro i hi
        have hi2 : i < 2 := hi
        interval_cases i <;> decide⟩
      (by decide) (by decide) (by decide) (by decide) (by decide) (by decide)
  exact ⟨s1, s2, h1, h2, h3, h4, h5, h6, h7⟩

/-! ## The weight vector and the feature length (C16) -/

theorem train_sgd_loop_same {F : Type} [LinearOrderedField F] [HasExp F] (rng : RandomSource F)
    (fuel : Nat) :
    ∀ (iter : Int) (self : LogisticRegression2 F) (log : List (LogLine F)) (c : F)
      (r : LogisticRegression2 F × List (LogLine F) × F),
      train_sgd_loop rng fuel iter self log c = some r → SameConfig r.1 self := by
  induction fuel with
  | zero =>
    intro iter self log c r h
    simp only [train_sgd_loop, Option.some.injEq] at h
    subst h
    exact SameConfig.refl _
  | succ fuel ih =>
    intro iter self log c r h
    simp only [train_sgd_loop] at h
    by_cases hbs0 : self.batch_size_ = 0
    · simp [hbs0] at h
    simp only [hbs0, if_false, Option.bind_eq_bind, Option.bind_eq_some] at h
    obtain ⟨r0, hr0, h⟩ := h
    have hs0 : SameConfig r0.1 self :=
      ((train_batch_loop_spec iter _ _ _ _ _ _ hr0).1).trans (shuffle_same rng iter.toNat self)
    by_cases hlt : r0.2.2 < r0.1.error_
    · simp only [hlt, if_true, Option.pure_def, Option.some.injEq] at h
      subst h
      exact hs0
    · simp only [hlt, if_false] at h
      exact (ih _ _ _ _ _ h).trans hs0

/-- Whenever the parameter part of `train` returns, the weight vector it leaves
has exactly `feature_length_` entries. -/
theorem train_parameters_weights {F : Type} [LinearOrderedField F] [HasExp F]
    (self s : LogisticRegression2 F) (rng : RandomSource F) (log : List (LogLine F))
    (h : self.train_parameters rng = some (s, log)) :
    0 ≤ s.feature_length_ ∧ s.w_.length = s.feature_length_.toNat := by
  unfold LogisticRegression2.train_parameters at h
  by_cases hfl : self.feature_length_ < 0
  · simp [hfl] at h
  rw [if_neg hfl] at h
  simp only at h
  have hw : (self.draw_parameters rng).w_.length = self.feature_length_.toNat := by
    simp [LogisticRegression2.draw_parameters]
  have hkeep : s.feature_length_ = self.feature_length_
      ∧ s.w_.length = (self.draw_parameters rng).w_.length := by
    by_cases hopt : (self.draw_parameters rng).optim_ = Optimization.BGD
    · rw [if_pos hopt] at h
      have hsame := (train_bgd_loop_spec _ _ _ _ _ h).1
      exact ⟨hsame.feature_length, hsame.w_len⟩
    · rw [if_neg hopt] at h
      simp only [Option.bind_eq_bind, Option.bind_eq_some, Option.pure_def, Option.some.injEq,
        Prod.mk.injEq] at h
      obtain ⟨d, _, r, hr, hs, _⟩ := h
      have hsame := train_sgd_loop_same rng _ _ _ _ _ _ hr
      rw [hs] at hsame
      exact ⟨hsame.feature_length, hsame.w_len⟩
  rw [hkeep.1]
  exact ⟨not_lt.mp hfl, hkeep.2.trans hw⟩

theorem decodeFloats_length {F : Type} [FloatBytes F] (n : Nat) (bs : List Byte) :
    (decodeFloats n bs : List F).length = n := by
  induction n generalizing bs with
  | zero => rfl
  | succ k ih => simp [decodeFloats, ih]

/-- A `load_model` call that returns 0 leaves a weight vector of exactly
`feature_length_` entries; a call that returns -1 has changed nothing. -/
theorem load_model_weights {G : Type} [Zero G] [FloatBytes G] (self s : LogisticRegression2 G)
    (file : Option (List Byte)) (status : Int) (h : self.load_model file = some (status, s)) :
    (status = 0 → 0 ≤ s.feature_length_ ∧ s.w_.length = s.feature_length_.toNat)
      ∧ (status ≠ 0 → s = self) := by
  unfold LogisticRegression2.load_model at h
  cases file with
  | none =>
    simp only [Option.some.injEq, Prod.mk.injEq] at h
    obtain ⟨h1, h2⟩ := h
    subst h1 h2
    exact ⟨fun h0 => absurd h0 (by decide), fun _ => rfl⟩
  | some content =>
    simp only at h
    split_ifs at h with hneg
    simp only [Option.some.injEq, Prod.mk.injEq] at h
    obtain ⟨h1, h2⟩ := h
    subst h1 h2
    refine ⟨fun _ => ⟨not_lt.mp hneg, ?_⟩, fun h0 => absurd rfl h0⟩
    simp only [decodeFloats_length, resize_length]

/-- A `predict` call whose declared length is the feature length, on a vector
of that many values and a weight vector of at least that many, returns a value. -/
theorem predict_returns {F : Type} [Field F] [HasExp F] (self : LogisticRegression2 F)
    (x : List F) (hx : self.feature_length_.toNat ≤ x.length)
    (hw : self.feature_length_.toNat ≤ self.w_.length) :
    ∃ v, self.predict x self.feature_length_ = some (Checked.value v) := by
  unfold LogisticRegression2.predict CHECK
  rw [if_pos rfl, foldlM_range_closed _
    (fun i => ∑ t in Finset.range i, x.getD t 0 * self.w_.getD t 0)
    self.feature_length_.toNat 0 _ (by simp) rfl]
  · exact ⟨_, rfl⟩
  · intro i hi
    rw [getElem?_eq_some_getD self.w_ 0 i (by omega), getElem?_eq_some_getD x 0 i (by omega)]
    simp [Finset.sum_range_succ]

/-- The model file of `rawModel`, loaded into the fresh object `rawBlank`. -/
theorem rawBlank_load :
    rawBlank.load_model (some [2, 0, 0, 0, 1, 2, 3, 4, 5, 6, 7, 8, 9, 10, 11, 12])
      = some (0, { rawBlank with w_ := rawModel.w_, feature_length_ := 2, b_ := rawModel.b_ }) := by
  decide

/-- C16 (as stated, refuted): the state that `freshReal.init twoSamples 1 1 1`
leaves is reachable, has feature length 1 and no weights, and a `predict` call
with declared length 1 reads position 0 of the empty weight vector: the call
has no defined result. -/
theorem predict_after_init_reads_outside_weights :
    freshReal.init twoSamples 1 1 1 = (0, initReal)
      ∧ initReal.feature_length_ = 1
      ∧ initReal.w_.length = 0
      ∧ initReal.predict [0] 1 = none := by
  refine ⟨freshReal_init, rfl, rfl, ?_⟩
  simp [LogisticRegression2.predict, CHECK, initReal, freshReal, List.range_succ]

/-- C16 (amended): a state left by the parameter part of a `train` call that
returns, or by a `load_model` call that returns 0, has a weight vector of
exactly `feature_length` entries, and in the former a `predict` call whose
declared length equals the feature length, on a vector of that many values,
reads valid positions only and returns a value; a `load_model` call that
returns another status has changed nothing. -/
theorem weights_cover_feature_length {F : Type} [LinearOrderedField F] [HasExp F]
    {G : Type} [Zero G] [FloatBytes G]
    (self s : LogisticRegression2 F) (rng : RandomSource F) (log : List (LogLine F))
    (selfG sG : LogisticRegression2 G) (file : Option (List Byte)) (status : Int) :
    (self.train_parameters rng = some (s, log) →
        (s.w_.length : Int) = s.feature_length_
        ∧ ∀ x : List F, s.feature_length_.toNat ≤ x.length →
            ∃ v, s.predict x s.feature_length_ = some (Checked.value v))
      ∧ (selfG.load_model file = some (status, sG) →
          (status = 0 → (sG.w_.length : Int) = sG.feature_length_)
          ∧ (status ≠ 0 → sG = selfG)) := by
  constructor
  · intro h
    obtain ⟨h0, hw⟩ := train_parameters_weights self s rng log h
    refine ⟨by omega, fun x hx => ?_⟩
    exact predict_returns s x hx (le_of_eq hw.symm)
  · intro h
    obtain ⟨h1, h2⟩ := load_model_weights selfG sG file status h
    exact ⟨fun h0 => by obtain ⟨ha, hb⟩ := h1 h0; omega, h2⟩

/-- Witness of `weights_cover_feature_length`: the state left by training on
the two sample dataset, and the state left by loading the model file of
`rawModel`. -/
theorem weights_cover_feature_length_witness :
    (∃ s log, initReal.train_parameters zeroSource = some (s, log)
        ∧ (s.w_.length : Int) = s.feature_length_
        ∧ ∃ v, s.predict [0] s.feature_length_ = some (Checked.value v))
      ∧ ∃ sG, rawBlank.load_model (some [2, 0, 0, 0, 1, 2, 3, 4, 5, 6, 7, 8, 9, 10, 11, 12])
            = some (0, sG)
          ∧ (sG.w_.length : Int) = sG.feature_length_ := by
  have h := weights_cover_feature_length initReal
    { bgdState with w_ := [0], b_ := 1 / 2, o_ := [1 / 2, 1 / 2] } zeroSource
    [⟨0, none, 1 / 8⟩] rawBlank
    { rawBlank with w_ := rawModel.w_, feature_length_ := 2, b_ := rawModel.b_ }
    (some [2, 0, 0, 0, 1, 2, 3, 4, 5, 6, 7, 8, 9, 10, 11, 12]) 0
  exact ⟨⟨_, _, initReal_train_parameters, (h.1 initReal_train_parameters).1,
      (h.1 initReal_train_parameters).2 [0] (by decide)⟩,
    ⟨_, rawBlank_load, (h.2 rawBlank_load).1 rfl⟩⟩

/-! ## The quantities applied and the derivatives of the loss (C7) -/

/-- The loss of the two sample dataset as a function of the bias, the weight
being 0. -/
theorem spec_loss_twoSamples (b : ℝ) :
    spec_loss 1 twoSamples (fun k => k) 2 [0] b
      = 1 / 2 * (1 - (1 + Real.exp (-b))⁻¹) ^ 2 := by
  simp only [spec_loss, spec_output, dot, sigmoid, hasExp_real, Finset.sum_range_succ,
    Finset.sum_range_zero]
  simp [twoSamples, Database.y, Database.x]
  ring

/-- The derivative of that loss with respect to the bias, at bias 0, is `-1/8`. -/
theorem spec_loss_twoSamples_deriv :
    HasDerivAt (fun b : ℝ => spec_loss 1 twoSamples (fun k => k) 2 [0] b) (-(1 / 8)) 0 := by
  have hfun : (fun b : ℝ => spec_loss 1 twoSamples (fun k => k) 2 [0] b)
      = fun b => 1 / 2 * (1 - (1 + Real.exp (-b))⁻¹) ^ 2 := funext spec_loss_twoSamples
  rw [hfun]
  have h1 : HasDerivAt (fun b : ℝ => Real.exp (-b)) (Real.exp (-0) * -1) 0 :=
    (hasDerivAt_neg (0 : ℝ)).exp
  have h2 := h1.const_add 1
  have hne : (1 + Real.exp (-(0 : ℝ))) ≠ 0 := by
    have := Real.exp_pos (-(0 : ℝ))
    linarith
  have h3 := h2.inv hne
  have h4 := h3.const_sub 1
  have h5 := h4.pow 2
  have h6 := h5.const_mul (1 / 2 : ℝ)
  convert h6 using 1
  simp
  norm_num

/-- C7 (as stated, refuted): on two samples `[0]` with label `1`, from weight
`0` and bias `0` with learning rate 1, the call changes the bias from `0` to
`1/2`: the quantity `db` it applies is `-1/2`.  The partial derivative of the
range-averaged loss with respect to the bias at these parameters is `-1/8`, and
`-1/2` is not a derivative of the loss there. -/
theorem applied_db_is_not_partial_derivative :
    bgdState.calculate_gradient_descent 0 0
        = some { bgdState with w_ := [0], b_ := 1 / 2, o_ := [1 / 2, 1 / 2] }
      ∧ (1 / 2 : ℝ) = bgdState.b_ - bgdState.alpha_ * (-(1 / 2))
      ∧ spec_db 1 [0] 0 twoSamples (fun k => k) 2 = -(1 / 2)
      ∧ HasDerivAt (fun b : ℝ => spec_loss 1 twoSamples (fun k => k) 2 [0] b) (-(1 / 8)) 0
      ∧ ¬ HasDerivAt (fun b : ℝ => spec_loss 1 twoSamples (fun k => k) 2 [0] b)
            (spec_db 1 [0] 0 twoSamples (fun k => k) 2) 0 := by
  have hdb : spec_db 1 [0] 0 twoSamples (fun k => k) 2 = -(1 / 2) := by
    simp only [spec_db, spec_delta, spec_output, dot, Finset.sum_range_succ,
      Finset.sum_range_zero]
    simp [twoSamples, Database.y, Database.x, sigmoid_zero]
    norm_num
  refine ⟨bgdState_update, ?_, hdb, spec_loss_twoSamples_deriv, ?_⟩
  · simp [bgdState]
  · intro h
    have := h.unique spec_loss_twoSamples_deriv
    rw [hdb] at this
    norm_num at this

/-- C7 (amended): the quantities that `calculate_gradient_descent` applies are
the range averages of `x_i[j] * d_i` (for `dw[j]`) and of `d_i` (for `db`),
where `d_i = a_i - y_i` is the derivative of the loss `1/2*(y_i - a)^2` of
sample `i` with respect to the activation output `a`, taken at the output
`a_i = sigmoid(w.x_i + b)`. -/
theorem applied_gradient_is_output_derivative
    (self : LogisticRegression2 ℝ) (d : Database ℝ) (start end_ : Int)
    (hd : self.data_ = some d) (hfl : 0 ≤ self.feature_length_)
    (hw : self.feature_length_.toNat ≤ self.w_.length)
    (hlen : 1 ≤ self.range_len start end_)
    (hB : self.optim_ = Optimization.BGD → self.m_.toNat ≤ self.o_.length)
    (hS : self.optim_ ≠ Optimization.BGD →
      0 ≤ start ∧ end_.toNat ≤ self.random_shuffle_.length ∧
      ∀ k, k < (end_ - start).toNat → 0 ≤ self.random_shuffle_.getD (start + k).toNat 0)
    (hidx : ∀ k, k < (self.range_len start end_).toNat →
      self.range_index start k < d.samples.length ∧
      self.range_index start k < d.labels.length ∧
      self.feature_length_.toNat ≤ (d.x (self.range_index start k)).length) :
    ∃ (s : LogisticRegression2 ℝ) (δ : Nat → ℝ),
      self.calculate_gradient_descent start end_ = some s
      ∧ (∀ k, HasDerivAt (fun a : ℝ => 1 / 2 * (d.y (self.range_index start k) - a) ^ 2) (δ k)
            (spec_output self.feature_length_.toNat self.w_ self.b_ d
              (self.range_index start k)))
      ∧ s.b_ = self.b_ - self.alpha_ *
          (1 / ((self.range_len start end_).toNat : ℝ)
            * ∑ k in Finset.range (self.range_len start end_).toNat, δ k)
      ∧ ∀ j, j < self.feature_length_.toNat →
          s.w_.getD j 0 = self.w_.getD j 0 - self.alpha_ *
            (1 / ((self.range_len start end_).toNat : ℝ)
              * ∑ k in Finset.range (self.range_len start end_).toNat,
                  (d.x (self.range_index start k)).getD j 0 * δ k) := by
  obtain ⟨s, hs, hb, hwe⟩ :=
    calculate_gradient_descent_formula self d start end_ hd hfl hw hlen hB hS hidx
  have hcast : (((self.range_len start end_).toNat : Nat) : ℝ)
      = ((self.range_len start end_ : Int) : ℝ) := cast_toNat _ (by omega)
  refine ⟨s, fun k => spec_delta self.feature_length_.toNat self.w_ self.b_ d
    (self.range_index start k), hs, ?_, ?_, ?_⟩
  · intro k
    have h1 := (hasDerivAt_id (spec_output self.feature_length_.toNat self.w_ self.b_ d
      (self.range_index start k))).const_sub (d.y (self.range_index start k))
    have h2 := (h1.pow 2).const_mul (1 / 2 : ℝ)
    convert h2 using 1
    simp only [spec_delta, id]
    ring
  · rw [hb, one_div_mul_eq_div, hcast]
  · intro j hj
    rw [hwe, updated_weights_getD _ _ _ _ j hj hw, one_div_mul_eq_div, hcast]

/-- Witness of `applied_gradient_is_output_derivative`: one step of the batch
branch on two samples `[0]` with label `1`. -/
theorem applied_gradient_is_output_derivative_witness :
    ∃ (s : LogisticRegression2 ℝ) (δ : Nat → ℝ),
      bgdState.calculate_gradient_descent 0 0 = some s
      ∧ (∀ k, HasDerivAt (fun a : ℝ => 1 / 2 * (twoSamples.y (bgdState.range_index 0 k) - a) ^ 2)
            (δ k)
            (spec_output bgdState.feature_length_.toNat bgdState.w_ bgdState.b_ twoSamples
              (bgdState.range_index 0 k)))
      ∧ s.b_ = bgdState.b_ - bgdState.alpha_ *
          (1 / ((bgdState.range_len 0 0).toNat : ℝ)
            * ∑ k in Finset.range (bgdState.range_len 0 0).toNat, δ k) := by
  obtain ⟨s, δ, h1, h2, h3, _⟩ := applied_gradient_is_output_derivative bgdState twoSamples 0 0
    rfl (by decide) (by decide) (by decide) (fun _ => by decide) (fun h => absurd rfl h)
    (by
      intro k hk
      have hk2 : k < 2 := hk
      interval_cases k <;> decide)
  exact ⟨s, δ, h1, h2, h3⟩

/-! ## The range of the sigmoid in exact arithmetic -/

/-- In exact real arithmetic the sigmoid of every number lies strictly between
0 and 1. -/
theorem sigmoid_real_range (v : ℝ) : 0 < sigmoid v ∧ sigmoid v < 1 := by
  have ht : 0 < Real.exp (-v) := Real.exp_pos _
  simp only [sigmoid, hasExp_real]
  constructor
  · exact one_div_pos.mpr (by linarith)
  · rw [div_lt_one (by linarith)]
    linarith

end ANN
